import Mathlib

/-
Verification of the ananke skill/MCP manager core (src/src-tauri/src/lib.rs).

The Rust code manipulates `serde_json::Value` documents, TOML documents,
filesystem paths and HTTP responses.  This file gives a shallow embedding of
the relevant functions:

* JSON values are modeled by the inductive `Json`; JSON objects are modeled
  as association lists in insertion order, with `ainsert` mirroring
  `Map::insert` (replace in place or append) and `aremove` mirroring
  `Map::remove`.  JSON numbers are modeled as integers; no verified claim
  distinguishes numeric subtypes.
* TOML values are modeled by the inductive `Toml` in the same way.
* Filesystem effects are modeled by explicit action traces (`FsAction`) and
  oracles for `fs::canonicalize` / `Path::exists` (`FsView`): a function
  returns `Except.ok actions` for the writes it performs, and an `Except.error`
  result performs no write at all (in the Rust code every save/remove happens
  after the last early return).
* Network effects (GitHub queries, generic fetches) are modeled by explicit
  response assignments passed as arguments.
-/

/-! ## JSON values and object operations -/

inductive Json where
  | null : Json
  | bool (b : Bool) : Json
  | num (n : Int) : Json
  | str (s : String) : Json
  | arr (items : List Json) : Json
  | obj (fields : List (String × Json)) : Json

abbrev JObj := List (String × Json)

/-- First-match lookup in an association list (`Map::get`). -/
def alookup {α : Type} : List (String × α) → String → Option α
  | [], _ => none
  | (k, v) :: rest, key => if k = key then some v else alookup rest key

/-- `Map::contains_key`. -/
def acontains {α : Type} (fields : List (String × α)) (key : String) : Bool :=
  (alookup fields key).isSome

/-- `Map::insert`: replace the value of an existing key in place, otherwise
append the new binding at the end (insertion-order map semantics). -/
def ainsert {α : Type} : List (String × α) → String → α → List (String × α)
  | [], key, val => [(key, val)]
  | (k, v) :: rest, key, val =>
    if k = key then (k, val) :: rest else (k, v) :: ainsert rest key val

/-- `Map::remove` (by key). -/
def aremove {α : Type} : List (String × α) → String → List (String × α)
  | [], _ => []
  | (k, v) :: rest, key => if k = key then rest else (k, v) :: aremove rest key

/-- The keys of an association list, in order. -/
def akeys {α : Type} (fields : List (String × α)) : List String :=
  fields.map Prod.fst

/-- Field lookup on a JSON value (`Value::get`): `none` on non-objects. -/
def jget : Json → String → Option Json
  | Json.obj fields, key => alookup fields key
  | _, _ => none

@[simp]
theorem alookup_nil {α : Type} (key : String) : alookup ([] : List (String × α)) key = none := rfl

@[simp]
theorem alookup_cons {α : Type} (k : String) (v : α) (rest : List (String × α)) (key : String) :
    alookup ((k, v) :: rest) key = if k = key then some v else alookup rest key := rfl

@[simp]
theorem akeys_nil {α : Type} : akeys ([] : List (String × α)) = [] := rfl

@[simp]
theorem akeys_cons {α : Type} (k : String) (v : α) (rest : List (String × α)) :
    akeys ((k, v) :: rest) = k :: akeys rest := rfl

theorem alookup_ainsert {α : Type} (l : List (String × α)) (k : String) (v : α) (key : String) :
    alookup (ainsert l k v) key = if k = key then some v else alookup l key := by
  induction l with
  | nil => simp [ainsert]
  | cons hd tl ih =>
    obtain ⟨a, b⟩ := hd
    by_cases hak : a = k
    · subst hak
      by_cases hkey : a = key <;> simp [ainsert, hkey]
    · by_cases hkey : a = key
      · subst hkey
        have hka : ¬ k = a := fun h => hak h.symm
        simp [ainsert, hak, hka]
      · simp [ainsert, hak, hkey, ih]

theorem alookup_ainsert_self {α : Type} (l : List (String × α)) (k : String) (v : α) :
    alookup (ainsert l k v) k = some v := by
  simp [alookup_ainsert]

theorem alookup_ainsert_ne {α : Type} (l : List (String × α)) (k : String) (v : α)
    (key : String) (h : k ≠ key) :
    alookup (ainsert l k v) key = alookup l key := by
  simp [alookup_ainsert, h]

theorem alookup_aremove_ne {α : Type} (l : List (String × α)) (k : String) (key : String)
    (h : k ≠ key) : alookup (aremove l k) key = alookup l key := by
  induction l with
  | nil => simp [aremove]
  | cons hd tl ih =>
    obtain ⟨a, b⟩ := hd
    by_cases hak : a = k
    · subst hak
      simp [aremove, h]
    · simp only [aremove, if_neg hak]
      by_cases hkey : a = key
      · simp [hkey]
      · simp [hkey, ih]

theorem alookup_eq_none_of_not_mem_keys {α : Type} (l : List (String × α)) (key : String) :
    key ∉ akeys l → alookup l key = none := by
  induction l with
  | nil => intro _; rfl
  | cons hd tl ih =>
    obtain ⟨a, b⟩ := hd
    intro h
    simp only [akeys_cons, List.mem_cons, not_or] at h
    have hne : ¬ a = key := fun hk => h.1 hk.symm
    simp [hne, ih h.2]

theorem alookup_isSome_iff_mem_keys {α : Type} (l : List (String × α)) (key : String) :
    (alookup l key).isSome = true ↔ key ∈ akeys l := by
  induction l with
  | nil => simp
  | cons hd tl ih =>
    obtain ⟨a, b⟩ := hd
    by_cases hk : a = key
    · subst hk; simp
    · have hne : key ≠ a := fun h => hk h.symm
      simp [hk, hne, ih]

theorem alookup_aremove_self {α : Type} (l : List (String × α)) (k : String)
    (h : (akeys l).Nodup) : alookup (aremove l k) k = none := by
  induction l with
  | nil => rfl
  | cons hd tl ih =>
    obtain ⟨a, b⟩ := hd
    simp only [akeys_cons, List.nodup_cons] at h
    by_cases hak : a = k
    · subst hak
      simp only [aremove, if_pos rfl]
      exact alookup_eq_none_of_not_mem_keys tl a h.1
    · simp [aremove, hak, ih h.2]

theorem akeys_ainsert_of_mem {α : Type} (l : List (String × α)) (k : String) (v : α) :
    k ∈ akeys l → akeys (ainsert l k v) = akeys l := by
  induction l with
  | nil => intro h; cases h
  | cons hd tl ih =>
    obtain ⟨a, b⟩ := hd
    intro h
    by_cases hak : a = k
    · simp [ainsert, hak]
    · have hk : k ∈ akeys tl := by
        rcases (List.mem_cons.mp (by simpa using h)) with h1 | h1
        · exact absurd h1.symm hak
        · exact h1
      simp [ainsert, hak, ih hk]

theorem akeys_ainsert_of_not_mem {α : Type} (l : List (String × α)) (k : String) (v : α) :
    k ∉ akeys l → akeys (ainsert l k v) = akeys l ++ [k] := by
  induction l with
  | nil => intro _; simp [ainsert]
  | cons hd tl ih =>
    obtain ⟨a, b⟩ := hd
    intro h
    simp only [akeys_cons, List.mem_cons, not_or] at h
    have hak : ¬ a = k := fun hk => h.1 hk.symm
    simp [ainsert, hak, ih h.2]

theorem nodup_akeys_ainsert {α : Type} (l : List (String × α)) (k : String) (v : α)
    (h : (akeys l).Nodup) : (akeys (ainsert l k v)).Nodup := by
  by_cases hk : k ∈ akeys l
  · rw [akeys_ainsert_of_mem l k v hk]; exact h
  · rw [akeys_ainsert_of_not_mem l k v hk]
    simpa [List.nodup_append] using ⟨h, fun hmem => hk hmem⟩

theorem akeys_aremove_sublist {α : Type} (l : List (String × α)) (k : String) :
    (akeys (aremove l k)).Sublist (akeys l) := by
  induction l with
  | nil => simp [aremove]
  | cons hd tl ih =>
    obtain ⟨a, b⟩ := hd
    by_cases hak : a = k
    · simp only [aremove, if_pos hak, akeys_cons]
      exact (List.Sublist.refl _).cons a
    · simp only [aremove, if_neg hak, akeys_cons]
      exact ih.cons₂ a

theorem nodup_akeys_aremove {α : Type} (l : List (String × α)) (k : String)
    (h : (akeys l).Nodup) : (akeys (aremove l k)).Nodup :=
  (akeys_aremove_sublist l k).nodup h

/-! ## Config Schema Normalizer: OpenCode and Antigravity conversions

Shallow embedding of `opencode_to_standard_config`, `standard_to_opencode_config`,
`antigravity_to_standard_config` and `standard_to_antigravity_config`
(src/src-tauri/src/lib.rs lines 1353-1489). -/

/-- `item.as_str().map(|v| JsonValue::String(v))`, used when filtering command
arguments. -/
def str_value : Json → Option Json
  | Json.str s => some (Json.str s)
  | _ => none

/-- `if let Some(v) = <vOpt> { out.insert(k, v.clone()); }` -/
def copy_field (out : JObj) (k : String) : Option Json → JObj
  | some v => ainsert out k v
  | none => out

/-- The final pass-through loop of `opencode_to_standard_config`: copy every
field whose key is not one of the specially handled ones. -/
def opencode_passthrough : JObj → JObj → JObj
  | out, [] => out
  | out, (key, value) :: rest =>
    if key = "command" || key = "url" || key = "enabled" || key = "type" ||
        key = "env" || key = "environment" then
      opencode_passthrough out rest
    else
      opencode_passthrough (ainsert out key value) rest

/-- `opencode_to_standard_config`: OpenCode native shape to canonical shape. -/
def opencode_to_standard_config (config : Json) : Json :=
  match config with
  | Json.obj fields =>
    let out : JObj := []
    let out := copy_field out "url" (alookup fields "url")
    let out :=
      match alookup fields "command" with
      | some (Json.arr items) =>
        match items with
        | Json.str first :: restItems =>
          let out := ainsert out "command" (Json.str first)
          let args := restItems.filterMap str_value
          if args.isEmpty then out else ainsert out "args" (Json.arr args)
        | _ => out
      | some (Json.str value) => ainsert out "command" (Json.str value)
      | _ => out
    let out := copy_field out "enabled" (alookup fields "enabled")
    let out := copy_field out "type" (alookup fields "type")
    let out :=
      match alookup fields "environment" with
      | some environment => ainsert out "env" environment
      | none => copy_field out "env" (alookup fields "env")
    Json.obj (opencode_passthrough out fields)
  | _ => config

/-- The `env` → `environment` renaming step of `standard_to_opencode_config`. -/
def oc_env_step (out : JObj) : JObj :=
  match alookup out "env" with
  | some env =>
    let removed := aremove out "env"
    if acontains removed "environment" then removed
    else ainsert removed "environment" env
  | none => out

/-- The `type` inference step of `standard_to_opencode_config`. -/
def oc_type_step (out : JObj) : JObj :=
  if acontains out "type" then out
  else if acontains out "url" then ainsert out "type" (Json.str "remote")
  else if acontains out "command" then ainsert out "type" (Json.str "local")
  else out

/-- `standard_to_opencode_config`: canonical shape to OpenCode native shape. -/
def standard_to_opencode_config (config : Json) : Except String Json :=
  match config with
  | Json.obj fields =>
    let out := fields
    let out :=
      match alookup fields "command" with
      | some command =>
        let out :=
          match command with
          | Json.str commandStr =>
            let commandArgs :=
              match alookup fields "args" with
              | some (Json.arr args) => args.filterMap str_value
              | _ => []
            ainsert out "command" (Json.arr (Json.str commandStr :: commandArgs))
          | _ => out
        aremove out "args"
      | none => out
    let out := oc_env_step out
    let out := oc_type_step out
    Except.ok (Json.obj out)
  | _ => Except.error "MCP server config must be an object"

/-- The field loop of `antigravity_to_standard_config`: `serverUrl` is renamed
to `url`; a plain `url` key is only kept if no `url` is present yet. -/
def antigravity_read_fields : JObj → JObj → JObj
  | out, [] => out
  | out, (key, value) :: rest =>
    if key = "serverUrl" then
      antigravity_read_fields (ainsert out "url" value) rest
    else if key ≠ "url" || !acontains out "url" then
      antigravity_read_fields (ainsert out key value) rest
    else
      antigravity_read_fields out rest

/-- `antigravity_to_standard_config`: Antigravity native shape to canonical. -/
def antigravity_to_standard_config (config : Json) : Json :=
  match config with
  | Json.obj fields => Json.obj (antigravity_read_fields [] fields)
  | _ => config

/-- The field loop of `standard_to_antigravity_config`: keep `serverUrl`,
drop `url`, keep everything else. -/
def antigravity_write_fields : JObj → JObj → JObj
  | out, [] => out
  | out, (key, value) :: rest =>
    if key = "serverUrl" then
      antigravity_write_fields (ainsert out key value) rest
    else if key ≠ "url" then
      antigravity_write_fields (ainsert out key value) rest
    else
      antigravity_write_fields out rest

/-- `standard_to_antigravity_config`: canonical shape to Antigravity native. -/
def standard_to_antigravity_config (config : Json) : Except String Json :=
  match config with
  | Json.obj fields =>
    let out := antigravity_write_fields [] fields
    let out :=
      if acontains out "serverUrl" then out
      else copy_field out "serverUrl" (alookup fields "url")
    Except.ok (Json.obj out)
  | _ => Except.error "MCP server config must be an object"

/-- Canonical → OpenCode native → canonical. -/
def opencode_roundtrip (config : Json) : Except String Json :=
  (standard_to_opencode_config config).map opencode_to_standard_config

/-- Canonical → Antigravity native → canonical. -/
def antigravity_roundtrip (config : Json) : Except String Json :=
  (standard_to_antigravity_config config).map antigravity_to_standard_config

/-! ### Lookup lemmas for the conversion building blocks -/

@[simp]
theorem copy_field_none (out : JObj) (k : String) : copy_field out k none = out := rfl

@[simp]
theorem copy_field_some (out : JObj) (k : String) (v : Json) :
    copy_field out k (some v) = ainsert out k v := rfl

theorem alookup_copy_field_ne (out : JObj) (k0 : String) (vOpt : Option Json) (key : String)
    (h : k0 ≠ key) : alookup (copy_field out k0 vOpt) key = alookup out key := by
  cases vOpt with
  | none => rfl
  | some v => simpa using alookup_ainsert_ne out k0 v key h

theorem alookup_copy_field_self (out : JObj) (k0 : String) (vOpt : Option Json)
    (hout : alookup out k0 = none) : alookup (copy_field out k0 vOpt) k0 = vOpt := by
  cases vOpt with
  | none => simpa using hout
  | some v => simpa using alookup_ainsert_self out k0 v

theorem nodup_akeys_copy_field (out : JObj) (k0 : String) (vOpt : Option Json)
    (h : (akeys out).Nodup) : (akeys (copy_field out k0 vOpt)).Nodup := by
  cases vOpt with
  | none => exact h
  | some v => exact nodup_akeys_ainsert out k0 v h

/-- Whether a key receives special treatment in `opencode_to_standard_config`. -/
def oc_special (key : String) : Bool :=
  key = "command" || key = "url" || key = "enabled" || key = "type" ||
    key = "env" || key = "environment"

theorem opencode_passthrough_lookup_special (l : JObj) (key : String)
    (h : oc_special key = true) :
    ∀ out : JObj, alookup (opencode_passthrough out l) key = alookup out key := by
  induction l with
  | nil => intro out; rfl
  | cons hd tl ih =>
    obtain ⟨k, v⟩ := hd
    intro out
    by_cases hk : (k = "command" || k = "url" || k = "enabled" || k = "type" ||
        k = "env" || k = "environment") = true
    · simp only [opencode_passthrough, if_pos hk]
      exact ih out
    · simp only [opencode_passthrough, if_neg hk]
      have hkey : k ≠ key := by
        intro hkk
        subst hkk
        exact hk (by simpa [oc_special] using h)
      rw [ih (ainsert out k v), alookup_ainsert_ne out k v key hkey]

theorem opencode_passthrough_lookup_none (l : JObj) (key : String)
    (h : alookup l key = none) :
    ∀ out : JObj, alookup (opencode_passthrough out l) key = alookup out key := by
  induction l with
  | nil => intro out; rfl
  | cons hd tl ih =>
    obtain ⟨k, v⟩ := hd
    have hk : k ≠ key := by
      intro hkk
      simp [hkk] at h
    have htl : alookup tl key = none := by
      simpa [hk] using h
    intro out
    by_cases hc : (k = "command" || k = "url" || k = "enabled" || k = "type" ||
        k = "env" || k = "environment") = true
    · simp only [opencode_passthrough, if_pos hc]
      exact ih htl out
    · simp only [opencode_passthrough, if_neg hc]
      rw [ih htl (ainsert out k v), alookup_ainsert_ne out k v key hk]

theorem opencode_passthrough_lookup_some (l : JObj) (key : String) (v : Json)
    (hnd : (akeys l).Nodup) (h : alookup l key = some v) (hs : oc_special key = false) :
    ∀ out : JObj, alookup (opencode_passthrough out l) key = some v := by
  induction l with
  | nil => simp at h
  | cons hd tl ih =>
    obtain ⟨k, w⟩ := hd
    simp only [akeys_cons, List.nodup_cons] at hnd
    intro out
    by_cases hk : k = key
    · subst hk
      have hv : w = v := by simpa using h
      subst hv
      have hc : ¬ ((k = "command" || k = "url" || k = "enabled" || k = "type" ||
          k = "env" || k = "environment") = true) := by
        simpa [oc_special] using hs
      simp only [opencode_passthrough, if_neg hc]
      have htl : alookup tl k = none := alookup_eq_none_of_not_mem_keys tl k hnd.1
      rw [opencode_passthrough_lookup_none tl k htl (ainsert out k w),
        alookup_ainsert_self]
    · have htl : alookup tl key = some v := by simpa [hk] using h
      by_cases hc : (k = "command" || k = "url" || k = "enabled" || k = "type" ||
          k = "env" || k = "environment") = true
      · simp only [opencode_passthrough, if_pos hc]
        exact ih hnd.2 htl out
      · simp only [opencode_passthrough, if_neg hc]
        exact ih hnd.2 htl (ainsert out k w)

theorem antigravity_write_lookup_url (l : JObj) :
    ∀ out : JObj, alookup (antigravity_write_fields out l) "url" = alookup out "url" := by
  induction l with
  | nil => intro out; rfl
  | cons hd tl ih =>
    obtain ⟨k, v⟩ := hd
    intro out
    by_cases hks : k = "serverUrl"
    · simp only [antigravity_write_fields, if_pos hks]
      rw [ih, alookup_ainsert_ne]
      subst hks; decide
    · by_cases hku : k = "url"
      · have : ¬ k ≠ "url" := by simpa using hku
        simp only [antigravity_write_fields, if_neg hks, if_neg this]
        exact ih out
      · simp only [antigravity_write_fields, if_neg hks, if_pos hku]
        rw [ih, alookup_ainsert_ne out k v "url" hku]

theorem antigravity_write_lookup_none (l : JObj) (key : String)
    (h : alookup l key = none) :
    ∀ out : JObj, alookup (antigravity_write_fields out l) key = alookup out key := by
  induction l with
  | nil => intro out; rfl
  | cons hd tl ih =>
    obtain ⟨k, v⟩ := hd
    have hk : k ≠ key := by intro hkk; simp [hkk] at h
    have htl : alookup tl key = none := by simpa [hk] using h
    intro out
    by_cases hks : k = "serverUrl"
    · simp only [antigravity_write_fields, if_pos hks]
      rw [ih htl, alookup_ainsert_ne out k v key hk]
    · by_cases hku : k ≠ "url"
      · simp only [antigravity_write_fields, if_neg hks, if_pos hku]
        rw [ih htl, alookup_ainsert_ne out k v key hk]
      · simp only [antigravity_write_fields, if_neg hks, if_neg hku]
        exact ih htl out

theorem antigravity_write_lookup_some (l : JObj) (key : String) (v : Json)
    (hnd : (akeys l).Nodup) (h : alookup l key = some v) (hku : key ≠ "url") :
    ∀ out : JObj, alookup (antigravity_write_fields out l) key = some v := by
  induction l with
  | nil => simp at h
  | cons hd tl ih =>
    obtain ⟨k, w⟩ := hd
    simp only [akeys_cons, List.nodup_cons] at hnd
    intro out
    by_cases hk : k = key
    · subst hk
      have hv : w = v := by simpa using h
      subst hv
      have htl : alookup tl k = none := alookup_eq_none_of_not_mem_keys tl k hnd.1
      by_cases hks : k = "serverUrl"
      · simp only [antigravity_write_fields, if_pos hks]
        rw [antigravity_write_lookup_none tl k htl, alookup_ainsert_self]
      · simp only [antigravity_write_fields, if_neg hks, if_pos hku]
        rw [antigravity_write_lookup_none tl k htl, alookup_ainsert_self]
    · have htl : alookup tl key = some v := by simpa [hk] using h
      by_cases hks : k = "serverUrl"
      · simp only [antigravity_write_fields, if_pos hks]
        exact ih hnd.2 htl _
      · by_cases hku2 : k ≠ "url"
        · simp only [antigravity_write_fields, if_neg hks, if_pos hku2]
          exact ih hnd.2 htl _
        · simp only [antigravity_write_fields, if_neg hks, if_neg hku2]
          exact ih hnd.2 htl out

theorem nodup_akeys_antigravity_write (l : JObj) :
    ∀ out : JObj, (akeys out).Nodup → (akeys (antigravity_write_fields out l)).Nodup := by
  induction l with
  | nil => intro out h; exact h
  | cons hd tl ih =>
    obtain ⟨k, v⟩ := hd
    intro out h
    by_cases hks : k = "serverUrl"
    · simp only [antigravity_write_fields, if_pos hks]
      exact ih _ (nodup_akeys_ainsert out k v h)
    · by_cases hku : k ≠ "url"
      · simp only [antigravity_write_fields, if_neg hks, if_pos hku]
        exact ih _ (nodup_akeys_ainsert out k v h)
      · simp only [antigravity_write_fields, if_neg hks, if_neg hku]
        exact ih out h

theorem antigravity_read_lookup_serverUrl (l : JObj) :
    ∀ out : JObj,
      alookup (antigravity_read_fields out l) "serverUrl" = alookup out "serverUrl" := by
  induction l with
  | nil => intro out; rfl
  | cons hd tl ih =>
    obtain ⟨k, v⟩ := hd
    intro out
    by_cases hks : k = "serverUrl"
    · simp only [antigravity_read_fields, if_pos hks]
      rw [ih, alookup_ainsert_ne]
      decide
    · simp only [antigravity_read_fields, if_neg hks]
      by_cases hc : (decide ¬ k = "url" || !acontains out "url") = true
      · rw [if_pos hc, ih, alookup_ainsert_ne out k v "serverUrl" hks]
      · rw [if_neg hc]
        exact ih out

theorem antigravity_read_lookup_url_none (l : JObj)
    (hsv : alookup l "serverUrl" = none) (hurl : alookup l "url" = none) :
    ∀ out : JObj, alookup (antigravity_read_fields out l) "url" = alookup out "url" := by
  induction l with
  | nil => intro out; rfl
  | cons hd tl ih =>
    obtain ⟨k, v⟩ := hd
    have hks : k ≠ "serverUrl" := by intro hkk; simp [hkk] at hsv
    have hku : k ≠ "url" := by intro hkk; simp [hkk] at hurl
    have hsv2 : alookup tl "serverUrl" = none := by simpa [hks] using hsv
    have hurl2 : alookup tl "url" = none := by simpa [hku] using hurl
    intro out
    have hc : (decide ¬ k = "url" || !acontains out "url") = true := by
      simp [hku]
    simp only [antigravity_read_fields, if_neg hks, if_pos hc]
    rw [ih hsv2 hurl2, alookup_ainsert_ne out k v "url" hku]

theorem antigravity_read_lookup_url_some (l : JObj) (v : Json)
    (hnd : (akeys l).Nodup)
    (hsv : alookup l "serverUrl" = some v) (hurl : alookup l "url" = none) :
    ∀ out : JObj, alookup (antigravity_read_fields out l) "url" = some v := by
  induction l with
  | nil => simp at hsv
  | cons hd tl ih =>
    obtain ⟨k, w⟩ := hd
    simp only [akeys_cons, List.nodup_cons] at hnd
    have hku : k ≠ "url" := by intro hkk; simp [hkk] at hurl
    have hurl2 : alookup tl "url" = none := by simpa [hku] using hurl
    intro out
    by_cases hks : k = "serverUrl"
    · have hv : w = v := by simpa [hks] using hsv
      have hsv2 : alookup tl "serverUrl" = none := by
        rw [hks] at hnd
        exact alookup_eq_none_of_not_mem_keys tl "serverUrl" hnd.1
      simp only [antigravity_read_fields, if_pos hks]
      rw [antigravity_read_lookup_url_none tl hsv2 hurl2, alookup_ainsert_self, hv]
    · have hsv2 : alookup tl "serverUrl" = some v := by simpa [hks] using hsv
      have hc : (decide ¬ k = "url" || !acontains out "url") = true := by
        simp [hku]
      simp only [antigravity_read_fields, if_neg hks, if_pos hc]
      exact ih hnd.2 hsv2 hurl2 _

theorem antigravity_read_lookup_other_none (l : JObj) (key : String)
    (hkeyu : key ≠ "url") (hkeys : key ≠ "serverUrl")
    (h : alookup l key = none) (hurl : alookup l "url" = none) :
    ∀ out : JObj, alookup (antigravity_read_fields out l) key = alookup out key := by
  induction l with
  | nil => intro out; rfl
  | cons hd tl ih =>
    obtain ⟨k, v⟩ := hd
    have hk : k ≠ key := by intro hkk; simp [hkk] at h
    have hku : k ≠ "url" := by intro hkk; simp [hkk] at hurl
    have htl : alookup tl key = none := by simpa [hk] using h
    have hurl2 : alookup tl "url" = none := by simpa [hku] using hurl
    intro out
    by_cases hks : k = "serverUrl"
    · simp only [antigravity_read_fields, if_pos hks]
      rw [ih htl hurl2, alookup_ainsert_ne out "url" v key (fun hkk => hkeyu hkk.symm)]
    · have hc : (decide ¬ k = "url" || !acontains out "url") = true := by
        simp [hku]
      simp only [antigravity_read_fields, if_neg hks, if_pos hc]
      rw [ih htl hurl2, alookup_ainsert_ne out k v key hk]

theorem antigravity_read_lookup_other_some (l : JObj) (key : String) (v : Json)
    (hnd : (akeys l).Nodup) (hkeyu : key ≠ "url") (hkeys : key ≠ "serverUrl")
    (h : alookup l key = some v) (hurl : alookup l "url" = none) :
    ∀ out : JObj, alookup (antigravity_read_fields out l) key = some v := by
  induction l with
  | nil => simp at h
  | cons hd tl ih =>
    obtain ⟨k, w⟩ := hd
    simp only [akeys_cons, List.nodup_cons] at hnd
    have hku : k ≠ "url" := by intro hkk; simp [hkk] at hurl
    have hurl2 : alookup tl "url" = none := by simpa [hku] using hurl
    intro out
    by_cases hk : k = key
    · subst hk
      have hv : w = v := by simpa using h
      subst hv
      have htl : alookup tl k = none := alookup_eq_none_of_not_mem_keys tl k hnd.1
      have hks : ¬ k = "serverUrl" := hkeys
      have hc : (decide ¬ k = "url" || !acontains out "url") = true := by
        simp [hku]
      simp only [antigravity_read_fields, if_neg hks, if_pos hc]
      rw [antigravity_read_lookup_other_none tl k hkeyu hkeys htl hurl2,
        alookup_ainsert_self]
    · have htl : alookup tl key = some v := by simpa [hk] using h
      by_cases hks : k = "serverUrl"
      · simp only [antigravity_read_fields, if_pos hks]
        exact ih hnd.2 htl hurl2 _
      · have hc : (decide ¬ k = "url" || !acontains out "url") = true := by
          simp [hku]
        simp only [antigravity_read_fields, if_neg hks, if_pos hc]
        exact ih hnd.2 htl hurl2 _

theorem alookup_copy_field (out : JObj) (k0 : String) (vOpt : Option Json) (key : String) :
    alookup (copy_field out k0 vOpt) key =
      if k0 = key then
        match vOpt with
        | some v => some v
        | none => alookup out key
      else alookup out key := by
  cases vOpt with
  | none => simp
  | some v =>
    by_cases hk : k0 = key
    · subst hk; simp [alookup_ainsert_self]
    · simp [hk, alookup_ainsert_ne out k0 v key hk]

/-- Round-trip through the Antigravity native shape preserves every field of a
canonical record, by lookup, provided the record has no `serverUrl` key. -/
theorem antigravity_roundtrip_lookup (fields : JObj)
    (hnd : (akeys fields).Nodup)
    (hsrv : alookup fields "serverUrl" = none) :
    ∃ rt, antigravity_roundtrip (Json.obj fields) = Except.ok rt ∧
      ∀ key, jget rt key = alookup fields key := by
  have hw_url : alookup (antigravity_write_fields [] fields) "url" = none := by
    rw [antigravity_write_lookup_url fields []]; rfl
  have hw_srv : alookup (antigravity_write_fields [] fields) "serverUrl" = none := by
    rw [antigravity_write_lookup_none fields "serverUrl" hsrv []]; rfl
  have hw_nodup : (akeys (antigravity_write_fields [] fields)).Nodup :=
    nodup_akeys_antigravity_write fields [] (by simp)
  have hstd : standard_to_antigravity_config (Json.obj fields) =
      Except.ok (Json.obj (copy_field (antigravity_write_fields [] fields) "serverUrl"
        (alookup fields "url"))) := by
    simp only [standard_to_antigravity_config, acontains, hw_srv, Option.isSome_none,
      Bool.false_eq_true, if_false]
  have hn_nodup : (akeys (copy_field (antigravity_write_fields [] fields) "serverUrl"
      (alookup fields "url"))).Nodup :=
    nodup_akeys_copy_field _ _ _ hw_nodup
  have hn_url : alookup (copy_field (antigravity_write_fields [] fields) "serverUrl"
      (alookup fields "url")) "url" = none := by
    rw [alookup_copy_field]
    simp [hw_url]
  have hn_srv : alookup (copy_field (antigravity_write_fields [] fields) "serverUrl"
      (alookup fields "url")) "serverUrl" = alookup fields "url" :=
    alookup_copy_field_self _ _ _ hw_srv
  refine ⟨antigravity_to_standard_config (Json.obj (copy_field
      (antigravity_write_fields [] fields) "serverUrl" (alookup fields "url"))), ?_, ?_⟩
  · rw [antigravity_roundtrip, hstd]; rfl
  · intro key
    simp only [antigravity_to_standard_config, jget]
    by_cases hku : key = "url"
    · subst hku
      cases hFu : alookup fields "url" with
      | none =>
        simp only [copy_field_none]
        rw [antigravity_read_lookup_url_none _ hw_srv hw_url []]
        rfl
      | some u =>
        simp only [copy_field_some]
        rw [antigravity_read_lookup_url_some _ u (nodup_akeys_ainsert _ _ _ hw_nodup)
          (alookup_ainsert_self _ _ _)
          (by rw [alookup_ainsert_ne _ _ _ _ (by decide)]; exact hw_url) []]
    · by_cases hks : key = "serverUrl"
      · subst hks
        rw [antigravity_read_lookup_serverUrl _ []]
        simp [hsrv]
      · have hn_other : alookup (copy_field (antigravity_write_fields [] fields) "serverUrl"
            (alookup fields "url")) key = alookup fields key := by
          rw [alookup_copy_field]
          rw [if_neg (fun h => hks h.symm)]
          cases hFk : alookup fields key with
          | none => rw [antigravity_write_lookup_none fields key hFk []]; rfl
          | some v => exact antigravity_write_lookup_some fields key v hnd hFk hku []
        cases hFk : alookup fields key with
        | none =>
          rw [antigravity_read_lookup_other_none _ key hku hks (hn_other.trans hFk) hn_url []]
          rfl
        | some v =>
          rw [antigravity_read_lookup_other_some _ key v hn_nodup hku hks
            (hn_other.trans hFk) hn_url []]

def is_str_json : Json → Bool
  | Json.str _ => true
  | _ => false

def cmd_field_ok : Option Json → Bool
  | none => true
  | some (Json.str _) => true
  | _ => false

def args_field_ok : Option Json → Bool
  | none => true
  | some (Json.arr l) => !l.isEmpty && l.all is_str_json
  | _ => false

theorem filterMap_str_value_self (l : List Json) (h : l.all is_str_json = true) :
    l.filterMap str_value = l := by
  induction l with
  | nil => rfl
  | cons x xs ih =>
    rw [List.all_cons, Bool.and_eq_true] at h
    cases x with
    | str s => simp [str_value, ih h.2]
    | null => simp [is_str_json] at h
    | bool b => simp [is_str_json] at h
    | num n => simp [is_str_json] at h
    | arr a => simp [is_str_json] at h
    | obj o => simp [is_str_json] at h

theorem opencode_reconstruct_lookup (fields native : JObj)
    (hnodup : (akeys native).Nodup)
    (henv2 : alookup fields "environment" = none)
    (h_url : alookup native "url" = alookup fields "url")
    (h_enabled : alookup native "enabled" = alookup fields "enabled")
    (h_type : alookup native "type" = alookup fields "type")
    (h_env : alookup native "env" = none)
    (h_envv : alookup native "environment" = alookup fields "env")
    (h_cmd :
      (alookup fields "command" = none ∧ alookup native "command" = none ∧
        alookup native "args" = alookup fields "args") ∨
      (∃ s cargs, alookup fields "command" = some (Json.str s) ∧
        alookup native "command" = some (Json.arr (Json.str s :: cargs)) ∧
        alookup native "args" = none ∧ cargs.filterMap str_value = cargs ∧
        ((cargs = [] ∧ alookup fields "args" = none) ∨
          (cargs ≠ [] ∧ alookup fields "args" = some (Json.arr cargs)))))
    (h_other : ∀ key, key ≠ "command" → key ≠ "args" → key ≠ "url" → key ≠ "enabled" →
      key ≠ "type" → key ≠ "env" → key ≠ "environment" →
      alookup native key = alookup fields key) :
    ∀ key, jget (opencode_to_standard_config (Json.obj native)) key = alookup fields key := by
  intro key
  simp only [opencode_to_standard_config, jget, h_url, h_enabled, h_type, h_envv]
  rcases h_cmd with ⟨hc0, hnc0, hna0⟩ | ⟨s, cargs, hfc, hnc, hna, hfm, hargs2⟩
  · -- command absent
    simp only [hnc0]
    cases hFe : alookup fields "env" with
    | none =>
      simp only [h_env, copy_field_none]
      by_cases h1 : key = "command"
      · subst h1
        rw [opencode_passthrough_lookup_special native _ (by decide)]
        simp [alookup_copy_field, alookup_ainsert, hc0]
      by_cases h2 : key = "url"
      · subst h2
        rw [opencode_passthrough_lookup_special native _ (by decide)]
        cases hFu : alookup fields "url" <;> simp [alookup_copy_field, alookup_ainsert]
      by_cases h3 : key = "enabled"
      · subst h3
        rw [opencode_passthrough_lookup_special native _ (by decide)]
        cases hFb : alookup fields "enabled" <;> simp [alookup_copy_field, alookup_ainsert, hFb]
      by_cases h4 : key = "type"
      · subst h4
        rw [opencode_passthrough_lookup_special native _ (by decide)]
        cases hFt : alookup fields "type" <;> simp [alookup_copy_field, alookup_ainsert, hFt]
      by_cases h5 : key = "env"
      · subst h5
        rw [opencode_passthrough_lookup_special native _ (by decide)]
        simp [alookup_copy_field, alookup_ainsert, hFe]
      by_cases h6 : key = "environment"
      · subst h6
        rw [opencode_passthrough_lookup_special native _ (by decide)]
        simp [alookup_copy_field, alookup_ainsert, henv2]
      by_cases h7 : key = "args"
      · subst h7
        cases hFa : alookup fields "args" with
        | none =>
          rw [opencode_passthrough_lookup_none native _ (hna0.trans hFa)]
          simp [alookup_copy_field, alookup_ainsert]
        | some v =>
          rw [opencode_passthrough_lookup_some native _ v hnodup (hna0.trans hFa) (by decide)]
      · have hsp : oc_special key = false := by
          simp [oc_special, h1, h2, h3, h4, h5, h6]
        have hN := h_other key h1 h7 h2 h3 h4 h5 h6
        cases hFk : alookup fields key with
        | none =>
          rw [opencode_passthrough_lookup_none native key (hN.trans hFk)]
          have h2x : ¬ ("url" = key) := fun h => h2 h.symm
          have h3x : ¬ ("enabled" = key) := fun h => h3 h.symm
          have h4x : ¬ ("type" = key) := fun h => h4 h.symm
          simp [alookup_copy_field, alookup_ainsert, h2x, h3x, h4x]
        | some v =>
          rw [opencode_passthrough_lookup_some native key v hnodup (hN.trans hFk) hsp]
    | some e =>
      by_cases h1 : key = "command"
      · subst h1
        rw [opencode_passthrough_lookup_special native _ (by decide)]
        simp [alookup_copy_field, alookup_ainsert, hc0]
      by_cases h2 : key = "url"
      · subst h2
        rw [opencode_passthrough_lookup_special native _ (by decide)]
        cases hFu : alookup fields "url" <;> simp [alookup_copy_field, alookup_ainsert]
      by_cases h3 : key = "enabled"
      · subst h3
        rw [opencode_passthrough_lookup_special native _ (by decide)]
        cases hFb : alookup fields "enabled" <;>
          simp [alookup_copy_field, alookup_ainsert, hFb]
      by_cases h4 : key = "type"
      · subst h4
        rw [opencode_passthrough_lookup_special native _ (by decide)]
        cases hFt : alookup fields "type" <;>
          simp [alookup_copy_field, alookup_ainsert, hFt]
      by_cases h5 : key = "env"
      · subst h5
        rw [opencode_passthrough_lookup_special native _ (by decide)]
        simp [alookup_ainsert, hFe]
      by_cases h6 : key = "environment"
      · subst h6
        rw [opencode_passthrough_lookup_special native _ (by decide)]
        simp [alookup_copy_field, alookup_ainsert, henv2]
      by_cases h7 : key = "args"
      · subst h7
        cases hFa : alookup fields "args" with
        | none =>
          rw [opencode_passthrough_lookup_none native _ (hna0.trans hFa)]
          simp [alookup_copy_field, alookup_ainsert]
        | some v =>
          rw [opencode_passthrough_lookup_some native _ v hnodup (hna0.trans hFa) (by decide)]
      · have hsp : oc_special key = false := by
          simp [oc_special, h1, h2, h3, h4, h5, h6]
        have hN := h_other key h1 h7 h2 h3 h4 h5 h6
        cases hFk : alookup fields key with
        | none =>
          rw [opencode_passthrough_lookup_none native key (hN.trans hFk)]
          have h2x : ¬ ("url" = key) := fun h => h2 h.symm
          have h3x : ¬ ("enabled" = key) := fun h => h3 h.symm
          have h4x : ¬ ("type" = key) := fun h => h4 h.symm
          have h5x : ¬ ("env" = key) := fun h => h5 h.symm
          simp [alookup_copy_field, alookup_ainsert, h2x, h3x, h4x, h5x]
        | some v =>
          rw [opencode_passthrough_lookup_some native key v hnodup (hN.trans hFk) hsp]
  · -- command present as a string
    simp only [hnc, hfm]
    have hie : (cargs.isEmpty = true ∧ cargs = [] ∧ alookup fields "args" = none) ∨
        (cargs.isEmpty = false ∧ alookup fields "args" = some (Json.arr cargs)) := by
      rcases hargs2 with ⟨hceq, hfa⟩ | ⟨hne, hfa⟩
      · exact Or.inl ⟨by rw [hceq]; rfl, hceq, hfa⟩
      · refine Or.inr ⟨?_, hfa⟩
        cases cargs with
        | nil => exact absurd rfl hne
        | cons a as => rfl
    rcases hie with ⟨hie, hceq, hfa⟩ | ⟨hie, hfa⟩
    · -- no args
      simp only [hie, if_true]
      cases hFe : alookup fields "env" with
      | none =>
        simp only [h_env, copy_field_none]
        by_cases h1 : key = "command"
        · subst h1
          rw [opencode_passthrough_lookup_special native _ (by decide)]
          simp [alookup_copy_field, alookup_ainsert, hfc]
        by_cases h2 : key = "url"
        · subst h2
          rw [opencode_passthrough_lookup_special native _ (by decide)]
          cases hFu : alookup fields "url" <;> simp [alookup_copy_field, alookup_ainsert]
        by_cases h3 : key = "enabled"
        · subst h3
          rw [opencode_passthrough_lookup_special native _ (by decide)]
          cases hFb : alookup fields "enabled" <;>
            simp [alookup_copy_field, alookup_ainsert, hFb]
        by_cases h4 : key = "type"
        · subst h4
          rw [opencode_passthrough_lookup_special native _ (by decide)]
          cases hFt : alookup fields "type" <;>
            simp [alookup_copy_field, alookup_ainsert, hFt]
        by_cases h5 : key = "env"
        · subst h5
          rw [opencode_passthrough_lookup_special native _ (by decide)]
          simp [alookup_copy_field, alookup_ainsert, hFe]
        by_cases h6 : key = "environment"
        · subst h6
          rw [opencode_passthrough_lookup_special native _ (by decide)]
          simp [alookup_copy_field, alookup_ainsert, henv2]
        by_cases h7 : key = "args"
        · subst h7
          rw [opencode_passthrough_lookup_none native _ hna]
          simp [alookup_copy_field, alookup_ainsert, hfa]
        · have hsp : oc_special key = false := by
            simp [oc_special, h1, h2, h3, h4, h5, h6]
          have hN := h_other key h1 h7 h2 h3 h4 h5 h6
          cases hFk : alookup fields key with
          | none =>
            rw [opencode_passthrough_lookup_none native key (hN.trans hFk)]
            have h1x : ¬ ("command" = key) := fun h => h1 h.symm
            have h2x : ¬ ("url" = key) := fun h => h2 h.symm
            have h3x : ¬ ("enabled" = key) := fun h => h3 h.symm
            have h4x : ¬ ("type" = key) := fun h => h4 h.symm
            simp [alookup_copy_field, alookup_ainsert, h1x, h2x, h3x, h4x]
          | some v =>
            rw [opencode_passthrough_lookup_some native key v hnodup (hN.trans hFk) hsp]
      | some e =>
        by_cases h1 : key = "command"
        · subst h1
          rw [opencode_passthrough_lookup_special native _ (by decide)]
          simp [alookup_copy_field, alookup_ainsert, hfc]
        by_cases h2 : key = "url"
        · subst h2
          rw [opencode_passthrough_lookup_special native _ (by decide)]
          cases hFu : alookup fields "url" <;> simp [alookup_copy_field, alookup_ainsert]
        by_cases h3 : key = "enabled"
        · subst h3
          rw [opencode_passthrough_lookup_special native _ (by decide)]
          cases hFb : alookup fields "enabled" <;>
            simp [alookup_copy_field, alookup_ainsert, hFb]
        by_cases h4 : key = "type"
        · subst h4
          rw [opencode_passthrough_lookup_special native _ (by decide)]
          cases hFt : alookup fields "type" <;>
            simp [alookup_copy_field, alookup_ainsert, hFt]
        by_cases h5 : key = "env"
        · subst h5
          rw [opencode_passthrough_lookup_special native _ (by decide)]
          simp [alookup_ainsert, hFe]
        by_cases h6 : key = "environment"
        · subst h6
          rw [opencode_passthrough_lookup_special native _ (by decide)]
          simp [alookup_copy_field, alookup_ainsert, henv2]
        by_cases h7 : key = "args"
        · subst h7
          rw [opencode_passthrough_lookup_none native _ hna]
          simp [alookup_copy_field, alookup_ainsert, hfa]
        · have hsp : oc_special key = false := by
            simp [oc_special, h1, h2, h3, h4, h5, h6]
          have hN := h_other key h1 h7 h2 h3 h4 h5 h6
          cases hFk : alookup fields key with
          | none =>
            rw [opencode_passthrough_lookup_none native key (hN.trans hFk)]
            have h1x : ¬ ("command" = key) := fun h => h1 h.symm
            have h2x : ¬ ("url" = key) := fun h => h2 h.symm
            have h3x : ¬ ("enabled" = key) := fun h => h3 h.symm
            have h4x : ¬ ("type" = key) := fun h => h4 h.symm
            have h5x : ¬ ("env" = key) := fun h => h5 h.symm
            simp [alookup_copy_field, alookup_ainsert, h1x, h2x, h3x, h4x, h5x]
          | some v =>
            rw [opencode_passthrough_lookup_some native key v hnodup (hN.trans hFk) hsp]
    · -- non-empty args
      simp only [hie, if_false]
      cases hFe : alookup fields "env" with
      | none =>
        simp only [h_env, copy_field_none]
        by_cases h1 : key = "command"
        · subst h1
          rw [opencode_passthrough_lookup_special native _ (by decide)]
          simp [alookup_copy_field, alookup_ainsert, hfc]
        by_cases h2 : key = "url"
        · subst h2
          rw [opencode_passthrough_lookup_special native _ (by decide)]
          cases hFu : alookup fields "url" <;> simp [alookup_copy_field, alookup_ainsert]
        by_cases h3 : key = "enabled"
        · subst h3
          rw [opencode_passthrough_lookup_special native _ (by decide)]
          cases hFb : alookup fields "enabled" <;>
            simp [alookup_copy_field, alookup_ainsert, hFb]
        by_cases h4 : key = "type"
        · subst h4
          rw [opencode_passthrough_lookup_special native _ (by decide)]
          cases hFt : alookup fields "type" <;>
            simp [alookup_copy_field, alookup_ainsert, hFt]
        by_cases h5 : key = "env"
        · subst h5
          rw [opencode_passthrough_lookup_special native _ (by decide)]
          simp [alookup_copy_field, alookup_ainsert, hFe]
        by_cases h6 : key = "environment"
        · subst h6
          rw [opencode_passthrough_lookup_special native _ (by decide)]
          simp [alookup_copy_field, alookup_ainsert, henv2]
        by_cases h7 : key = "args"
        · subst h7
          rw [opencode_passthrough_lookup_none native _ hna]
          simp [alookup_copy_field, alookup_ainsert, hfa]
        · have hsp : oc_special key = false := by
            simp [oc_special, h1, h2, h3, h4, h5, h6]
          have hN := h_other key h1 h7 h2 h3 h4 h5 h6
          cases hFk : alookup fields key with
          | none =>
            rw [opencode_passthrough_lookup_none native key (hN.trans hFk)]
            have h1x : ¬ ("command" = key) := fun h => h1 h.symm
            have h2x : ¬ ("url" = key) := fun h => h2 h.symm
            have h3x : ¬ ("enabled" = key) := fun h => h3 h.symm
            have h4x : ¬ ("type" = key) := fun h => h4 h.symm
            have h7x : ¬ ("args" = key) := fun h => h7 h.symm
            simp [alookup_copy_field, alookup_ainsert, h1x, h2x, h3x, h4x, h7x]
          | some v =>
            rw [opencode_passthrough_lookup_some native key v hnodup (hN.trans hFk) hsp]
      | some e =>
        by_cases h1 : key = "command"
        · subst h1
          rw [opencode_passthrough_lookup_special native _ (by decide)]
          simp [alookup_copy_field, alookup_ainsert, hfc]
        by_cases h2 : key = "url"
        · subst h2
          rw [opencode_passthrough_lookup_special native _ (by decide)]
          cases hFu : alookup fields "url" <;> simp [alookup_copy_field, alookup_ainsert]
        by_cases h3 : key = "enabled"
        · subst h3
          rw [opencode_passthrough_lookup_special native _ (by decide)]
          cases hFb : alookup fields "enabled" <;>
            simp [alookup_copy_field, alookup_ainsert, hFb]
        by_cases h4 : key = "type"
        · subst h4
          rw [opencode_passthrough_lookup_special native _ (by decide)]
          cases hFt : alookup fields "type" <;>
            simp [alookup_copy_field, alookup_ainsert, hFt]
        by_cases h5 : key = "env"
        · subst h5
          rw [opencode_passthrough_lookup_special native _ (by decide)]
          simp [alookup_ainsert, hFe]
        by_cases h6 : key = "environment"
        · subst h6
          rw [opencode_passthrough_lookup_special native _ (by decide)]
          simp [alookup_copy_field, alookup_ainsert, henv2]
        by_cases h7 : key = "args"
        · subst h7
          rw [opencode_passthrough_lookup_none native _ hna]
          simp [alookup_copy_field, alookup_ainsert, hfa]
        · have hsp : oc_special key = false := by
            simp [oc_special, h1, h2, h3, h4, h5, h6]
          have hN := h_other key h1 h7 h2 h3 h4 h5 h6
          cases hFk : alookup fields key with
          | none =>
            rw [opencode_passthrough_lookup_none native key (hN.trans hFk)]
            have h1x : ¬ ("command" = key) := fun h => h1 h.symm
            have h2x : ¬ ("url" = key) := fun h => h2 h.symm
            have h3x : ¬ ("enabled" = key) := fun h => h3 h.symm
            have h4x : ¬ ("type" = key) := fun h => h4 h.symm
            have h5x : ¬ ("env" = key) := fun h => h5 h.symm
            have h7x : ¬ ("args" = key) := fun h => h7 h.symm
            simp [alookup_copy_field, alookup_ainsert, h1x, h2x, h3x, h4x, h5x, h7x]
          | some v =>
            rw [opencode_passthrough_lookup_some native key v hnodup (hN.trans hFk) hsp]

theorem oc_tail_spec (fields g : JObj) (hgnd : (akeys g).Nodup)
    (hg_env : alookup g "env" = alookup fields "env")
    (hg_envv : alookup g "environment" = none)
    (hg_type : alookup g "type" = alookup fields "type")
    (hg_url : alookup g "url" = alookup fields "url")
    (hg_cmd : (alookup g "command").isSome = (alookup fields "command").isSome)
    (htype : ((alookup fields "type").isSome ||
      ((alookup fields "url").isNone && (alookup fields "command").isNone)) = true) :
    ∃ native, oc_type_step (oc_env_step g) = native ∧
      (akeys native).Nodup ∧
      alookup native "env" = none ∧
      alookup native "environment" = alookup fields "env" ∧
      (∀ key, key ≠ "env" → key ≠ "environment" → alookup native key = alookup g key) := by
  have henvstep : ∃ mid, oc_env_step g = mid ∧ (akeys mid).Nodup ∧
      alookup mid "env" = none ∧ alookup mid "environment" = alookup fields "env" ∧
      (∀ key, key ≠ "env" → key ≠ "environment" → alookup mid key = alookup g key) := by
    cases hge : alookup g "env" with
    | none =>
      refine ⟨g, ?_, hgnd, hge, ?_, fun key _ _ => rfl⟩
      · rw [oc_env_step, hge]
      · rw [hg_envv, ← hg_env, hge]
    | some e =>
      refine ⟨ainsert (aremove g "env") "environment" e, ?_, ?_, ?_, ?_, ?_⟩
      · simp only [oc_env_step, hge]
        rw [if_neg ?hcont]
        case hcont =>
          rw [acontains, alookup_aremove_ne _ _ _ (by decide), hg_envv]
          simp
      · exact nodup_akeys_ainsert _ _ _ (nodup_akeys_aremove _ _ hgnd)
      · rw [alookup_ainsert_ne _ _ _ _ (by decide)]
        exact alookup_aremove_self g "env" hgnd
      · rw [alookup_ainsert_self, ← hg_env, hge]
      · intro key hke hkv
        rw [alookup_ainsert_ne _ _ _ _ (fun h => hkv h.symm),
          alookup_aremove_ne _ _ _ (fun h => hke h.symm)]
  obtain ⟨mid, hmid, hmidnd, hmid_env, hmid_envv, hmid_other⟩ := henvstep
  rw [hmid]
  by_cases ht : acontains mid "type" = true
  · exact ⟨mid, by rw [oc_type_step, if_pos ht], hmidnd, hmid_env, hmid_envv, hmid_other⟩
  · have hmt : alookup mid "type" = alookup fields "type" :=
      (hmid_other "type" (by decide) (by decide)).trans hg_type
    have hmu : alookup mid "url" = alookup fields "url" :=
      (hmid_other "url" (by decide) (by decide)).trans hg_url
    have hmc : (alookup mid "command").isSome = (alookup fields "command").isSome := by
      rw [hmid_other "command" (by decide) (by decide), hg_cmd]
    have hB : ((alookup fields "url").isNone && (alookup fields "command").isNone) = true := by
      cases hA : (alookup fields "type").isSome with
      | true => exact absurd (by rw [acontains, hmt]; exact hA) ht
      | false => rw [hA] at htype; simpa using htype
    rw [Bool.and_eq_true] at hB
    have hcu : ¬ acontains mid "url" = true := by
      rw [acontains, hmu, Option.isNone_iff_eq_none.mp hB.1]
      simp
    have hcc : ¬ acontains mid "command" = true := by
      rw [acontains, hmc]
      cases hx : alookup fields "command" with
      | none => simp
      | some v => rw [hx] at hB; simp at hB
    exact ⟨mid, by rw [oc_type_step, if_neg ht, if_neg hcu, if_neg hcc], hmidnd,
      hmid_env, hmid_envv, hmid_other⟩

/-- Round-trip through the OpenCode native shape preserves every field of a
canonical record, by lookup, provided: keys are unique, `command` (when
present) is a string, `args` (when present) is a non-empty array of strings,
there is no `environment` passthrough key, and `type` is present unless both
`url` and `command` are absent. -/
theorem opencode_roundtrip_lookup (fields : JObj)
    (hnd : (akeys fields).Nodup)
    (hcmd : cmd_field_ok (alookup fields "command") = true)
    (hargs : args_field_ok (alookup fields "args") = true)
    (henv2 : alookup fields "environment" = none)
    (htype : ((alookup fields "type").isSome ||
      ((alookup fields "url").isNone && (alookup fields "command").isNone)) = true) :
    ∃ rt, opencode_roundtrip (Json.obj fields) = Except.ok rt ∧
      ∀ key, jget rt key = alookup fields key := by
  cases hc : alookup fields "command" with
  | none =>
    obtain ⟨native, hstep, hnodupN, hNenv, hNenvv, hNother⟩ :=
      oc_tail_spec fields fields hnd rfl henv2 rfl rfl rfl htype
    have hstd : standard_to_opencode_config (Json.obj fields) =
        Except.ok (Json.obj native) := by
      simp only [standard_to_opencode_config, hc, hstep]
    refine ⟨opencode_to_standard_config (Json.obj native), ?_, ?_⟩
    · rw [opencode_roundtrip, hstd]; rfl
    · exact opencode_reconstruct_lookup fields native hnodupN henv2
        (hNother "url" (by decide) (by decide))
        (hNother "enabled" (by decide) (by decide))
        (hNother "type" (by decide) (by decide))
        hNenv hNenvv
        (Or.inl ⟨hc, (hNother "command" (by decide) (by decide)).trans hc,
          hNother "args" (by decide) (by decide)⟩)
        (fun key _ h7 _ _ _ h5 h6 => hNother key h5 h6)
  | some cv =>
    rw [hc] at hcmd
    cases cv with
    | null => simp [cmd_field_ok] at hcmd
    | bool b => simp [cmd_field_ok] at hcmd
    | num n => simp [cmd_field_ok] at hcmd
    | arr a => simp [cmd_field_ok] at hcmd
    | obj o => simp [cmd_field_ok] at hcmd
    | str s =>
      have hargs3 : (alookup fields "args" = none) ∨
          (∃ l, alookup fields "args" = some (Json.arr l) ∧ l ≠ [] ∧
            l.filterMap str_value = l) := by
        cases ha : alookup fields "args" with
        | none => exact Or.inl rfl
        | some av =>
          rw [ha] at hargs
          cases av with
          | arr l =>
            simp only [args_field_ok, Bool.and_eq_true] at hargs
            refine Or.inr ⟨l, rfl, ?_, filterMap_str_value_self l hargs.2⟩
            intro hl
            rw [hl] at hargs
            simp at hargs
          | null => simp [args_field_ok] at hargs
          | bool b => simp [args_field_ok] at hargs
          | num n => simp [args_field_ok] at hargs
          | str t => simp [args_field_ok] at hargs
          | obj o => simp [args_field_ok] at hargs
      rcases hargs3 with ha | ⟨l, ha, hlne, hlf⟩
      · -- args absent
        have hginsnd : (akeys (ainsert fields "command"
            (Json.arr [Json.str s]))).Nodup := nodup_akeys_ainsert _ _ _ hnd
        have hg_other : ∀ key, key ≠ "command" → key ≠ "args" →
            alookup (aremove (ainsert fields "command" (Json.arr [Json.str s])) "args") key
              = alookup fields key := by
          intro key h1 h7
          rw [alookup_aremove_ne _ _ _ (fun h => h7 h.symm),
            alookup_ainsert_ne _ _ _ _ (fun h => h1 h.symm)]
        have hg_cmd : alookup (aremove (ainsert fields "command"
            (Json.arr [Json.str s])) "args") "command" = some (Json.arr [Json.str s]) := by
          rw [alookup_aremove_ne _ _ _ (by decide), alookup_ainsert_self]
        have hg_args : alookup (aremove (ainsert fields "command"
            (Json.arr [Json.str s])) "args") "args" = none :=
          alookup_aremove_self _ _ hginsnd
        obtain ⟨native, hstep, hnodupN, hNenv, hNenvv, hNother⟩ :=
          oc_tail_spec fields _ (nodup_akeys_aremove _ _ hginsnd)
            (hg_other "env" (by decide) (by decide))
            ((hg_other "environment" (by decide) (by decide)).trans henv2)
            (hg_other "type" (by decide) (by decide))
            (hg_other "url" (by decide) (by decide))
            (by rw [hg_cmd, hc]; rfl)
            htype
        have hstd : standard_to_opencode_config (Json.obj fields) =
            Except.ok (Json.obj native) := by
          simp only [standard_to_opencode_config, hc, ha, hstep]
        refine ⟨opencode_to_standard_config (Json.obj native), ?_, ?_⟩
        · rw [opencode_roundtrip, hstd]; rfl
        · exact opencode_reconstruct_lookup fields native hnodupN henv2
            ((hNother "url" (by decide) (by decide)).trans
              (hg_other "url" (by decide) (by decide)))
            ((hNother "enabled" (by decide) (by decide)).trans
              (hg_other "enabled" (by decide) (by decide)))
            ((hNother "type" (by decide) (by decide)).trans
              (hg_other "type" (by decide) (by decide)))
            hNenv hNenvv
            (Or.inr ⟨s, [], hc,
              (hNother "command" (by decide) (by decide)).trans hg_cmd,
              (hNother "args" (by decide) (by decide)).trans hg_args,
              rfl, Or.inl ⟨rfl, ha⟩⟩)
            (fun key h1 h7 _ _ _ h5 h6 =>
              (hNother key h5 h6).trans (hg_other key h1 h7))
      · -- args is a non-empty array of strings
        have hginsnd : (akeys (ainsert fields "command"
            (Json.arr (Json.str s :: l)))).Nodup := nodup_akeys_ainsert _ _ _ hnd
        have hg_other : ∀ key, key ≠ "command" → key ≠ "args" →
            alookup (aremove (ainsert fields "command"
              (Json.arr (Json.str s :: l))) "args") key = alookup fields key := by
          intro key h1 h7
          rw [alookup_aremove_ne _ _ _ (fun h => h7 h.symm),
            alookup_ainsert_ne _ _ _ _ (fun h => h1 h.symm)]
        have hg_cmd : alookup (aremove (ainsert fields "command"
            (Json.arr (Json.str s :: l))) "args") "command"
              = some (Json.arr (Json.str s :: l)) := by
          rw [alookup_aremove_ne _ _ _ (by decide), alookup_ainsert_self]
        have hg_args : alookup (aremove (ainsert fields "command"
            (Json.arr (Json.str s :: l))) "args") "args" = none :=
          alookup_aremove_self _ _ hginsnd
        obtain ⟨native, hstep, hnodupN, hNenv, hNenvv, hNother⟩ :=
          oc_tail_spec fields _ (nodup_akeys_aremove _ _ hginsnd)
            (hg_other "env" (by decide) (by decide))
            ((hg_other "environment" (by decide) (by decide)).trans henv2)
            (hg_other "type" (by decide) (by decide))
            (hg_other "url" (by decide) (by decide))
            (by rw [hg_cmd, hc]; rfl)
            htype
        have hstd : standard_to_opencode_config (Json.obj fields) =
            Except.ok (Json.obj native) := by
          simp only [standard_to_opencode_config, hc, ha, hlf, hstep]
        refine ⟨opencode_to_standard_config (Json.obj native), ?_, ?_⟩
        · rw [opencode_roundtrip, hstd]; rfl
        · exact opencode_reconstruct_lookup fields native hnodupN henv2
            ((hNother "url" (by decide) (by decide)).trans
              (hg_other "url" (by decide) (by decide)))
            ((hNother "enabled" (by decide) (by decide)).trans
              (hg_other "enabled" (by decide) (by decide)))
            ((hNother "type" (by decide) (by decide)).trans
              (hg_other "type" (by decide) (by decide)))
            hNenv hNenvv
            (Or.inr ⟨s, l, hc,
              (hNother "command" (by decide) (by decide)).trans hg_cmd,
              (hNother "args" (by decide) (by decide)).trans hg_args,
              hlf, Or.inr ⟨hlne, ha⟩⟩)
            (fun key h1 h7 _ _ _ h5 h6 =>
              (hNother key h5 h6).trans (hg_other key h1 h7))

/-- C1 counterexample: the canonical record with only a string `command` field
gains a `type: "local"` field under the OpenCode round-trip, so the round-trip
is not equal to the original on the canonical `type` field. -/
theorem mcp_config_roundtrip_counterexample :
    opencode_roundtrip (Json.obj [("command", Json.str "c")]) =
      Except.ok (Json.obj [("command", Json.str "c"), ("type", Json.str "local")]) ∧
    jget (Json.obj [("command", Json.str "c"), ("type", Json.str "local")]) "type" =
      some (Json.str "local") ∧
    jget (Json.obj [("command", Json.str "c")]) "type" = none :=
  ⟨rfl, rfl, rfl⟩

/-- C1: for every canonical record with unique keys in which `command` (when
present) is a string, `args` (when present) is a non-empty array of strings,
no `environment` or `serverUrl` passthrough key is used, and `type` is present
unless both `url` and `command` are absent, converting to the OpenCode native
shape and back, and to the Antigravity native shape and back, yields a record
equal to the original on every field (canonical and passthrough alike), by
lookup. -/
theorem mcp_config_roundtrip (fields : JObj)
    (hnd : (akeys fields).Nodup)
    (hcmd : cmd_field_ok (alookup fields "command") = true)
    (hargs : args_field_ok (alookup fields "args") = true)
    (henv2 : alookup fields "environment" = none)
    (htype : ((alookup fields "type").isSome ||
      ((alookup fields "url").isNone && (alookup fields "command").isNone)) = true)
    (hsrv : alookup fields "serverUrl" = none) :
    (∃ rt, opencode_roundtrip (Json.obj fields) = Except.ok rt ∧
      ∀ key, jget rt key = alookup fields key) ∧
    (∃ rt, antigravity_roundtrip (Json.obj fields) = Except.ok rt ∧
      ∀ key, jget rt key = alookup fields key) :=
  ⟨opencode_roundtrip_lookup fields hnd hcmd hargs henv2 htype,
    antigravity_roundtrip_lookup fields hnd hsrv⟩

/-- A fully populated canonical record used to witness the round-trip law. -/
def sample_standard_config : JObj :=
  [("command", Json.str "npx"),
   ("args", Json.arr [Json.str "-y", Json.str "server"]),
   ("url", Json.str "https://example.com/mcp"),
   ("env", Json.obj [("API_KEY", Json.str "secret")]),
   ("type", Json.str "local"),
   ("enabled", Json.bool true),
   ("extra", Json.num 7)]

/-- C1 witness: the round-trip law instantiated at a concrete record. -/
theorem mcp_config_roundtrip_witness :
    ((akeys sample_standard_config).Nodup ∧
      cmd_field_ok (alookup sample_standard_config "command") = true ∧
      args_field_ok (alookup sample_standard_config "args") = true ∧
      alookup sample_standard_config "environment" = none ∧
      ((alookup sample_standard_config "type").isSome ||
        ((alookup sample_standard_config "url").isNone &&
          (alookup sample_standard_config "command").isNone)) = true ∧
      alookup sample_standard_config "serverUrl" = none) ∧
    ((∃ rt, opencode_roundtrip (Json.obj sample_standard_config) = Except.ok rt ∧
      ∀ key, jget rt key = alookup sample_standard_config key) ∧
    (∃ rt, antigravity_roundtrip (Json.obj sample_standard_config) = Except.ok rt ∧
      ∀ key, jget rt key = alookup sample_standard_config key)) :=
  ⟨⟨by decide, rfl, rfl, rfl, rfl, rfl⟩,
    mcp_config_roundtrip sample_standard_config (by decide) rfl rfl rfl rfl rfl⟩

/-! ## TOML values and the Codex document format -/

inductive Toml where
  | str (s : String) : Toml
  | int (n : Int) : Toml
  | bool (b : Bool) : Toml
  | datetime (s : String) : Toml
  | arr (items : List Toml) : Toml
  | table (fields : List (String × Toml)) : Toml

/-- Field lookup on a TOML value (`Value::get`): `none` on non-tables. -/
def tget : Toml → String → Option Toml
  | Toml.table fields, key => alookup fields key
  | _, _ => none

mutual
/-- `json_to_toml`: a JSON null is unrepresentable in TOML.  (JSON numbers are
integers in this embedding, so the integer branch of the Rust function is the
only number branch.) -/
def json_to_toml : Json → Except String Toml
  | Json.null => Except.error "Null values are not supported"
  | Json.bool b => Except.ok (Toml.bool b)
  | Json.num n => Except.ok (Toml.int n)
  | Json.str s => Except.ok (Toml.str s)
  | Json.arr values => Except.map Toml.arr (json_list_to_toml values)
  | Json.obj values => Except.map Toml.table (json_fields_to_toml values)

def json_list_to_toml : List Json → Except String (List Toml)
  | [] => Except.ok []
  | v :: rest =>
    match json_to_toml v with
    | Except.error e => Except.error e
    | Except.ok t =>
      match json_list_to_toml rest with
      | Except.error e => Except.error e
      | Except.ok ts => Except.ok (t :: ts)

def json_fields_to_toml : List (String × Json) → Except String (List (String × Toml))
  | [] => Except.ok []
  | (k, v) :: rest =>
    match json_to_toml v with
    | Except.error e => Except.error e
    | Except.ok t =>
      match json_fields_to_toml rest with
      | Except.error e => Except.error e
      | Except.ok ts => Except.ok ((k, t) :: ts)
end

/-! ## `upsert_mcp_servers` and `delete_mcp_server_for_source` -/

/-- The per-entry insert loop of `upsert_mcp_servers`, parameterized by the
per-format conversion of a canonical entry to the native value type. -/
def upsert_entries {β : Type} (convert : Json → Except String β) :
    List (String × β) → List (String × Json) → Except String (List (String × β))
  | table, [] => Except.ok table
  | table, (id, cfg) :: rest =>
    match convert cfg with
    | Except.error e => Except.error e
    | Except.ok converted => upsert_entries convert (ainsert table id converted) rest

/-- `upsert_mcp_servers` for the three JSON formats, parameterized by the
container key and conversion of the format kind (ClaudeJson: `mcpServers` with
the identity conversion; AntigravityJson: `mcpServers` with
`standard_to_antigravity_config`; OpenCodeJson: `mcp` with
`standard_to_opencode_config`).  The `Except.ok` value is the document saved
to disk; an error performs no save. -/
def upsert_mcp_servers_json (containerKey invalidMsg : String)
    (convert : Json → Except String Json)
    (doc : Json) (servers : List (String × Json)) : Except String Json :=
  match doc with
  | Json.obj root =>
    let containerVal :=
      match alookup root containerKey with
      | some v => v
      | none => Json.obj []
    match containerVal with
    | Json.obj table =>
      match upsert_entries convert table servers with
      | Except.error e => Except.error e
      | Except.ok table2 =>
        Except.ok (Json.obj (ainsert root containerKey (Json.obj table2)))
    | _ => Except.error invalidMsg
  | _ => Except.error "Invalid JSON format"

/-- The ClaudeJson arm of `upsert_mcp_servers` (configs inserted unchanged). -/
def upsert_mcp_servers_claude (doc : Json) (servers : List (String × Json)) :
    Except String Json :=
  upsert_mcp_servers_json "mcpServers" "Invalid mcpServers format" Except.ok doc servers

/-- The AntigravityJson arm of `upsert_mcp_servers`. -/
def upsert_mcp_servers_antigravity (doc : Json) (servers : List (String × Json)) :
    Except String Json :=
  upsert_mcp_servers_json "mcpServers" "Invalid mcpServers format"
    standard_to_antigravity_config doc servers

/-- The OpenCodeJson arm of `upsert_mcp_servers`. -/
def upsert_mcp_servers_opencode (doc : Json) (servers : List (String × Json)) :
    Except String Json :=
  upsert_mcp_servers_json "mcp" "Invalid mcp format" standard_to_opencode_config doc servers

/-- The CodexToml arm of `upsert_mcp_servers`. -/
def upsert_mcp_servers_toml (doc : Toml) (servers : List (String × Json)) :
    Except String Toml :=
  match doc with
  | Toml.table root =>
    let containerVal :=
      match alookup root "mcp_servers" with
      | some v => v
      | none => Toml.table []
    match containerVal with
    | Toml.table mcpTable =>
      match upsert_entries json_to_toml mcpTable servers with
      | Except.error e => Except.error e
      | Except.ok table2 =>
        Except.ok (Toml.table (ainsert root "mcp_servers" (Toml.table table2)))
    | _ => Except.error "Invalid mcp_servers format"
  | _ => Except.error "Invalid config format"

/-- One server entry of a JSON document's container object. -/
def container_entry_json (doc : Json) (containerKey id : String) : Option Json :=
  match jget doc containerKey with
  | some (Json.obj m) => alookup m id
  | _ => none

/-- One server entry of the `mcp_servers` table of a TOML document. -/
def container_entry_toml (doc : Toml) (id : String) : Option Toml :=
  match tget doc "mcp_servers" with
  | some (Toml.table m) => alookup m id
  | _ => none

/-- `delete_mcp_server_for_source` for the JSON formats (ClaudeJson and
AntigravityJson use container key `mcpServers` and message
"No mcpServers configured"; OpenCodeJson uses `mcp` and
"No mcp configured"). -/
def delete_mcp_server_json (containerKey missingMsg : String)
    (doc : Json) (serverId : String) : Except String Json :=
  match doc with
  | Json.obj root =>
    match alookup root containerKey with
    | some (Json.obj serversMap) =>
      if acontains serversMap serverId then
        Except.ok (Json.obj (ainsert root containerKey
          (Json.obj (aremove serversMap serverId))))
      else Except.error "MCP server not found"
    | _ => Except.error missingMsg
  | _ => Except.error "Invalid JSON format"

/-- `delete_mcp_server_for_source` for the CodexToml format. -/
def delete_mcp_server_toml (doc : Toml) (serverId : String) : Except String Toml :=
  match doc with
  | Toml.table root =>
    match alookup root "mcp_servers" with
    | some (Toml.table mcpTable) =>
      if acontains mcpTable serverId then
        Except.ok (Toml.table (ainsert root "mcp_servers"
          (Toml.table (aremove mcpTable serverId))))
      else Except.error "MCP server not found"
    | _ => Except.error "No MCP servers configured"
  | _ => Except.error "Invalid config format"

/-- The on-disk effect of a JSON delete: the document is only rewritten when
the delete succeeds (the Rust code saves after the last early return). -/
def delete_mcp_server_json_disk (containerKey missingMsg : String)
    (doc : Json) (serverId : String) : Json :=
  match delete_mcp_server_json containerKey missingMsg doc serverId with
  | Except.ok doc2 => doc2
  | Except.error _ => doc

/-- The on-disk effect of a TOML delete. -/
def delete_mcp_server_toml_disk (doc : Toml) (serverId : String) : Toml :=
  match delete_mcp_server_toml doc serverId with
  | Except.ok doc2 => doc2
  | Except.error _ => doc

theorem upsert_entries_frame {β : Type} (convert : Json → Except String β)
    (servers : List (String × Json)) :
    ∀ table table2, upsert_entries convert table servers = Except.ok table2 →
      ∀ id, id ∉ servers.map Prod.fst → alookup table2 id = alookup table id := by
  induction servers with
  | nil =>
    intro table table2 h id _
    cases h
    rfl
  | cons hd rest ih =>
    obtain ⟨i, c⟩ := hd
    intro table table2 h id hid
    simp only [upsert_entries] at h
    cases hcv : convert c with
    | error e => rw [hcv] at h; cases h
    | ok cv =>
      rw [hcv] at h
      simp only [List.map_cons, List.mem_cons, not_or] at hid
      rw [ih _ _ h id hid.2, alookup_ainsert_ne _ _ _ _ (fun he => hid.1 he.symm)]

theorem upsert_entries_mem {β : Type} (convert : Json → Except String β)
    (servers : List (String × Json)) (hnd : (servers.map Prod.fst).Nodup) :
    ∀ table table2, upsert_entries convert table servers = Except.ok table2 →
      ∀ id cfg, (id, cfg) ∈ servers →
        ∃ cv, convert cfg = Except.ok cv ∧ alookup table2 id = some cv := by
  induction servers with
  | nil => intro table table2 _ id cfg hmem; cases hmem
  | cons hd rest ih =>
    obtain ⟨i, c⟩ := hd
    simp only [List.map_cons, List.nodup_cons] at hnd
    intro table table2 h id cfg hmem
    simp only [upsert_entries] at h
    cases hcv : convert c with
    | error e => rw [hcv] at h; cases h
    | ok cv =>
      rw [hcv] at h
      rcases List.mem_cons.mp hmem with heq | hmem2
      · cases heq
        refine ⟨cv, hcv, ?_⟩
        rw [upsert_entries_frame convert rest _ _ h i hnd.1, alookup_ainsert_self]
      · exact ih hnd.2 _ _ h id cfg hmem2

/-- C3: for every native server document of any of the four format kinds, a
successful `upsert_mcp_servers` leaves every top-level key other than the
servers container key mapped to its prior value, leaves every sibling server
entry (identifier not in the upserted set) unchanged, and maps each upserted
identifier to the converted value of its canonical entry. -/
theorem upsert_mcp_servers_frame :
    (∀ containerKey invalidMsg convert doc servers doc2,
      upsert_mcp_servers_json containerKey invalidMsg convert doc servers =
        Except.ok doc2 →
      (∀ k, k ≠ containerKey → jget doc2 k = jget doc k) ∧
      (∀ id, id ∉ servers.map Prod.fst →
        container_entry_json doc2 containerKey id =
          container_entry_json doc containerKey id) ∧
      ((servers.map Prod.fst).Nodup → ∀ id cfg, (id, cfg) ∈ servers →
        ∃ cv, convert cfg = Except.ok cv ∧
          container_entry_json doc2 containerKey id = some cv)) ∧
    (∀ doc servers doc2,
      upsert_mcp_servers_toml doc servers = Except.ok doc2 →
      (∀ k, k ≠ "mcp_servers" → tget doc2 k = tget doc k) ∧
      (∀ id, id ∉ servers.map Prod.fst →
        container_entry_toml doc2 id = container_entry_toml doc id) ∧
      ((servers.map Prod.fst).Nodup → ∀ id cfg, (id, cfg) ∈ servers →
        ∃ cv, json_to_toml cfg = Except.ok cv ∧
          container_entry_toml doc2 id = some cv)) := by
  constructor
  · intro containerKey invalidMsg convert doc servers doc2 h
    cases doc with
    | null => simp [upsert_mcp_servers_json] at h
    | bool b => simp [upsert_mcp_servers_json] at h
    | num n => simp [upsert_mcp_servers_json] at h
    | str s => simp [upsert_mcp_servers_json] at h
    | arr a => simp [upsert_mcp_servers_json] at h
    | obj root =>
      simp only [upsert_mcp_servers_json] at h
      cases hcon : alookup root containerKey with
      | none =>
        simp only [hcon] at h
        cases hup : upsert_entries convert [] servers with
        | error e => simp only [hup] at h; cases h
        | ok table2 =>
          simp only [hup] at h
          cases h
          refine ⟨?_, ?_, ?_⟩
          · intro k hk
            simp only [jget]
            rw [alookup_ainsert_ne _ _ _ _ (fun h2 => hk h2.symm)]
          · intro id hid
            simp only [container_entry_json, jget, alookup_ainsert_self, hcon]
            rw [upsert_entries_frame convert servers _ _ hup id hid]
            rfl
          · intro hnd id cfg hmem
            obtain ⟨cv, hcv, hlook⟩ :=
              upsert_entries_mem convert servers hnd _ _ hup id cfg hmem
            refine ⟨cv, hcv, ?_⟩
            simp only [container_entry_json, jget, alookup_ainsert_self]
            exact hlook
      | some cval =>
        simp only [hcon] at h
        cases cval with
        | null => cases h
        | bool b => cases h
        | num n => cases h
        | str s => cases h
        | arr a => cases h
        | obj m =>
          cases hup : upsert_entries convert m servers with
          | error e => simp only [hup] at h; cases h
          | ok table2 =>
            simp only [hup] at h
            cases h
            refine ⟨?_, ?_, ?_⟩
            · intro k hk
              simp only [jget]
              rw [alookup_ainsert_ne _ _ _ _ (fun h2 => hk h2.symm)]
            · intro id hid
              simp only [container_entry_json, jget, alookup_ainsert_self, hcon]
              rw [upsert_entries_frame convert servers _ _ hup id hid]
            · intro hnd id cfg hmem
              obtain ⟨cv, hcv, hlook⟩ :=
                upsert_entries_mem convert servers hnd _ _ hup id cfg hmem
              refine ⟨cv, hcv, ?_⟩
              simp only [container_entry_json, jget, alookup_ainsert_self]
              exact hlook
  · intro doc servers doc2 h
    cases doc with
    | str s => simp [upsert_mcp_servers_toml] at h
    | int n => simp [upsert_mcp_servers_toml] at h
    | bool b => simp [upsert_mcp_servers_toml] at h
    | datetime s => simp [upsert_mcp_servers_toml] at h
    | arr a => simp [upsert_mcp_servers_toml] at h
    | table root =>
      simp only [upsert_mcp_servers_toml] at h
      cases hcon : alookup root "mcp_servers" with
      | none =>
        simp only [hcon] at h
        cases hup : upsert_entries json_to_toml [] servers with
        | error e => simp only [hup] at h; cases h
        | ok table2 =>
          simp only [hup] at h
          cases h
          refine ⟨?_, ?_, ?_⟩
          · intro k hk
            simp only [tget]
            rw [alookup_ainsert_ne _ _ _ _ (fun h2 => hk h2.symm)]
          · intro id hid
            simp only [container_entry_toml, tget, alookup_ainsert_self, hcon]
            rw [upsert_entries_frame json_to_toml servers _ _ hup id hid]
            rfl
          · intro hnd id cfg hmem
            obtain ⟨cv, hcv, hlook⟩ :=
              upsert_entries_mem json_to_toml servers hnd _ _ hup id cfg hmem
            refine ⟨cv, hcv, ?_⟩
            simp only [container_entry_toml, tget, alookup_ainsert_self]
            exact hlook
      | some cval =>
        simp only [hcon] at h
        cases cval with
        | str s => cases h
        | int n => cases h
        | bool b => cases h
        | datetime s => cases h
        | arr a => cases h
        | table m =>
          cases hup : upsert_entries json_to_toml m servers with
          | error e => simp only [hup] at h; cases h
          | ok table2 =>
            simp only [hup] at h
            cases h
            refine ⟨?_, ?_, ?_⟩
            · intro k hk
              simp only [tget]
              rw [alookup_ainsert_ne _ _ _ _ (fun h2 => hk h2.symm)]
            · intro id hid
              simp only [container_entry_toml, tget, alookup_ainsert_self, hcon]
              rw [upsert_entries_frame json_to_toml servers _ _ hup id hid]
            · intro hnd id cfg hmem
              obtain ⟨cv, hcv, hlook⟩ :=
                upsert_entries_mem json_to_toml servers hnd _ _ hup id cfg hmem
              refine ⟨cv, hcv, ?_⟩
              simp only [container_entry_toml, tget, alookup_ainsert_self]
              exact hlook

/-- A Claude-format document with an unrelated top-level key and one sibling
server entry, used to witness the upsert frame property. -/
def sample_claude_doc : Json :=
  Json.obj [("other", Json.num 1),
    ("mcpServers", Json.obj [("keep", Json.str "x")])]

/-- The canonical entries upserted in the C3 witness. -/
def sample_upsert_servers : List (String × Json) :=
  [("new", Json.obj [("command", Json.str "c")])]

/-- C3 witness: upserting `new` preserves the unrelated top-level key `other`
and the sibling entry `keep`. -/
theorem upsert_mcp_servers_frame_witness :
    upsert_mcp_servers_claude sample_claude_doc sample_upsert_servers =
      Except.ok (Json.obj [("other", Json.num 1),
        ("mcpServers", Json.obj [("keep", Json.str "x"),
          ("new", Json.obj [("command", Json.str "c")])])]) ∧
    jget (Json.obj [("other", Json.num 1),
        ("mcpServers", Json.obj [("keep", Json.str "x"),
          ("new", Json.obj [("command", Json.str "c")])])]) "other" =
      jget sample_claude_doc "other" ∧
    container_entry_json (Json.obj [("other", Json.num 1),
        ("mcpServers", Json.obj [("keep", Json.str "x"),
          ("new", Json.obj [("command", Json.str "c")])])]) "mcpServers" "keep" =
      container_entry_json sample_claude_doc "mcpServers" "keep" :=
  ⟨rfl,
    (upsert_mcp_servers_frame.1 "mcpServers" "Invalid mcpServers format" Except.ok
      sample_claude_doc sample_upsert_servers _ rfl).1 "other" (by decide),
    (upsert_mcp_servers_frame.1 "mcpServers" "Invalid mcpServers format" Except.ok
      sample_claude_doc sample_upsert_servers _ rfl).2.1 "keep" (by decide)⟩

/-- C4: deleting a server identifier absent from a document's container (or
with the container key absent) fails with a not-found error, and the document
on disk is byte-for-byte unchanged because no save happens on the error
path. -/
theorem delete_missing_server_not_found :
    (∀ containerKey missingMsg root id,
      (alookup root containerKey = none ∨
        ∃ m, alookup root containerKey = some (Json.obj m) ∧ alookup m id = none) →
      (∃ e, delete_mcp_server_json containerKey missingMsg (Json.obj root) id =
          Except.error e ∧ (e = missingMsg ∨ e = "MCP server not found")) ∧
      delete_mcp_server_json_disk containerKey missingMsg (Json.obj root) id =
        Json.obj root) ∧
    (∀ root id,
      (alookup root "mcp_servers" = none ∨
        ∃ m, alookup root "mcp_servers" = some (Toml.table m) ∧ alookup m id = none) →
      (∃ e, delete_mcp_server_toml (Toml.table root) id = Except.error e ∧
        (e = "No MCP servers configured" ∨ e = "MCP server not found")) ∧
      delete_mcp_server_toml_disk (Toml.table root) id = Toml.table root) := by
  constructor
  · intro containerKey missingMsg root id hyp
    have herr : ∃ e, delete_mcp_server_json containerKey missingMsg (Json.obj root) id =
        Except.error e ∧ (e = missingMsg ∨ e = "MCP server not found") := by
      rcases hyp with hnone | ⟨m, hm, hid⟩
      · exact ⟨missingMsg, by simp [delete_mcp_server_json, hnone], Or.inl rfl⟩
      · exact ⟨"MCP server not found",
          by simp [delete_mcp_server_json, hm, acontains, hid], Or.inr rfl⟩
    refine ⟨herr, ?_⟩
    obtain ⟨e, he, _⟩ := herr
    simp only [delete_mcp_server_json_disk, he]
  · intro root id hyp
    have herr : ∃ e, delete_mcp_server_toml (Toml.table root) id = Except.error e ∧
        (e = "No MCP servers configured" ∨ e = "MCP server not found") := by
      rcases hyp with hnone | ⟨m, hm, hid⟩
      · exact ⟨"No MCP servers configured",
          by simp [delete_mcp_server_toml, hnone], Or.inl rfl⟩
      · exact ⟨"MCP server not found",
          by simp [delete_mcp_server_toml, hm, acontains, hid], Or.inr rfl⟩
    refine ⟨herr, ?_⟩
    obtain ⟨e, he, _⟩ := herr
    simp only [delete_mcp_server_toml_disk, he]

/-- C4 witness: deleting the absent identifier `missing` from a document whose
container holds only `a` errors out and leaves the document unchanged. -/
theorem delete_missing_server_not_found_witness :
    (∃ e, delete_mcp_server_json "mcpServers" "No mcpServers configured"
        (Json.obj [("mcpServers", Json.obj [("a", Json.str "v")])]) "missing" =
        Except.error e ∧ (e = "No mcpServers configured" ∨ e = "MCP server not found")) ∧
      delete_mcp_server_json_disk "mcpServers" "No mcpServers configured"
        (Json.obj [("mcpServers", Json.obj [("a", Json.str "v")])]) "missing" =
        Json.obj [("mcpServers", Json.obj [("a", Json.str "v")])] :=
  delete_missing_server_not_found.1 "mcpServers" "No mcpServers configured"
    [("mcpServers", Json.obj [("a", Json.str "v")])] "missing"
    (Or.inr ⟨[("a", Json.str "v")], rfl, rfl⟩)

/-! ## Sync Engine: `sync_skills_from_agent` and `sync_mcp_from_agent` -/

/-- The per-skill loop of `sync_skills_from_agent`.  `canonOk id` is the
oracle for "the canonicalized skill directory stays under the canonicalized
source root"; `targetDirs` is the list of directory names existing under the
target root, grown by each `copy_dir_recursive`. -/
def sync_skills_loop (canonOk : String → Bool) :
    List String → List String → Nat → Nat → Except String (Nat × Nat × List String)
  | [], targetDirs, added, skipped => Except.ok (added, skipped, targetDirs)
  | id :: rest, targetDirs, added, skipped =>
    if !canonOk id then Except.error "Refusing to copy outside agent root"
    else if targetDirs.contains id then
      sync_skills_loop canonOk rest targetDirs added (skipped + 1)
    else
      sync_skills_loop canonOk rest (id :: targetDirs) (added + 1) skipped

/-- `sync_skills_from_agent`: the same-identifier gate, the missing-source
check, canonicalization of the source root, and the add-only merge loop.
`sourceSkillIds` abstracts the directory names found by
`read_skills(source)`. -/
def sync_skills_from_agent (sourceId targetId : String) (sourceRootExists : Bool)
    (sourceRootCanon : Except String Unit) (canonOk : String → Bool)
    (sourceSkillIds : List String) (targetDirs : List String) :
    Except String (Nat × Nat × List String) :=
  if sourceId = targetId then Except.error "Source and target must be different"
  else if !sourceRootExists then Except.error "Source skills directory missing"
  else
    match sourceRootCanon with
    | Except.error e => Except.error ("Failed to resolve source root: " ++ e)
    | Except.ok _ => sync_skills_loop canonOk sourceSkillIds targetDirs 0 0

/-- Target directory state after `sync_skills_from_agent` (unchanged when the
command errors out before copying). -/
def sync_skills_from_agent_disk (sourceId targetId : String) (sourceRootExists : Bool)
    (sourceRootCanon : Except String Unit) (canonOk : String → Bool)
    (sourceSkillIds : List String) (targetDirs : List String) : List String :=
  match sync_skills_from_agent sourceId targetId sourceRootExists sourceRootCanon canonOk
      sourceSkillIds targetDirs with
  | Except.ok r => r.2.2
  | Except.error _ => targetDirs

/-- The identifiers reported by `read_mcp_servers` for a JSON document (their
order is irrelevant here: `sync_mcp_from_agent` collects them into a
`HashSet`). -/
def read_container_ids (doc : Json) (containerKey : String) : List String :=
  match jget doc containerKey with
  | some (Json.obj m) => akeys m
  | _ => []

/-- The counting loop of `sync_mcp_from_agent`: items already present are
skipped, the rest are staged for insertion. -/
def sync_mcp_split (existingIds : List String) :
    List (String × Json) → Nat × Nat × List (String × Json)
  | [] => (0, 0, [])
  | (id, cfg) :: rest =>
    let r := sync_mcp_split existingIds rest
    if existingIds.contains id then (r.1, r.2.1 + 1, r.2.2)
    else (r.1 + 1, r.2.1, (id, cfg) :: r.2.2)

/-- `sync_mcp_from_agent` against a JSON-format target document (the
container key and per-entry conversion select the target format, as in
`upsert_mcp_servers_json`).  `sourceServers` abstracts the entries read from
the source document. -/
def sync_mcp_from_agent (sourceId targetId containerKey invalidMsg : String)
    (convert : Json → Except String Json)
    (sourceServers : List (String × Json)) (targetDoc : Json) :
    Except String (Nat × Nat × Json) :=
  if sourceId = targetId then Except.error "Source and target must be different"
  else
    let existingIds := read_container_ids targetDoc containerKey
    let r := sync_mcp_split existingIds sourceServers
    if r.2.2.isEmpty then Except.ok (r.1, r.2.1, targetDoc)
    else
      match upsert_mcp_servers_json containerKey invalidMsg convert targetDoc r.2.2 with
      | Except.error e => Except.error e
      | Except.ok doc2 => Except.ok (r.1, r.2.1, doc2)

/-- Target document state after `sync_mcp_from_agent` (unchanged when the
command errors out before writing). -/
def sync_mcp_from_agent_disk (sourceId targetId containerKey invalidMsg : String)
    (convert : Json → Except String Json)
    (sourceServers : List (String × Json)) (targetDoc : Json) : Json :=
  match sync_mcp_from_agent sourceId targetId containerKey invalidMsg convert
      sourceServers targetDoc with
  | Except.ok r => r.2.2
  | Except.error _ => targetDoc

/-- C10: when the source and target identifiers are equal, both
`sync_skills_from_agent` and `sync_mcp_from_agent` fail with the validation
error "Source and target must be different" for every state of the
filesystem and documents (the check happens before any read or write), and
the target state is unchanged. -/
theorem sync_same_source_target_rejected (sourceId targetId : String)
    (h : sourceId = targetId) :
    (∀ sourceRootExists sourceRootCanon canonOk sourceSkillIds targetDirs,
      sync_skills_from_agent sourceId targetId sourceRootExists sourceRootCanon canonOk
        sourceSkillIds targetDirs =
        Except.error "Source and target must be different" ∧
      sync_skills_from_agent_disk sourceId targetId sourceRootExists sourceRootCanon
        canonOk sourceSkillIds targetDirs = targetDirs) ∧
    (∀ containerKey invalidMsg convert sourceServers targetDoc,
      sync_mcp_from_agent sourceId targetId containerKey invalidMsg convert
        sourceServers targetDoc =
        Except.error "Source and target must be different" ∧
      sync_mcp_from_agent_disk sourceId targetId containerKey invalidMsg convert
        sourceServers targetDoc = targetDoc) := by
  constructor
  · intro sourceRootExists sourceRootCanon canonOk sourceSkillIds targetDirs
    have h1 : sync_skills_from_agent sourceId targetId sourceRootExists sourceRootCanon
        canonOk sourceSkillIds targetDirs =
        Except.error "Source and target must be different" := by
      rw [sync_skills_from_agent.eq_def, if_pos h]
    exact ⟨h1, by rw [sync_skills_from_agent_disk.eq_def, h1]⟩
  · intro containerKey invalidMsg convert sourceServers targetDoc
    have h1 : sync_mcp_from_agent sourceId targetId containerKey invalidMsg convert
        sourceServers targetDoc =
        Except.error "Source and target must be different" := by
      rw [sync_mcp_from_agent.eq_def, if_pos h]
    exact ⟨h1, by rw [sync_mcp_from_agent_disk.eq_def, h1]⟩

/-- C10 witness: syncing `claude` onto itself is rejected with an untouched
target. -/
theorem sync_same_source_target_rejected_witness :
    "claude" = "claude" ∧
    (sync_skills_from_agent "claude" "claude" true (Except.ok ()) (fun _ => true)
        ["a"] ["b"] = Except.error "Source and target must be different" ∧
      sync_skills_from_agent_disk "claude" "claude" true (Except.ok ()) (fun _ => true)
        ["a"] ["b"] = ["b"]) ∧
    (sync_mcp_from_agent "claude" "claude" "mcpServers" "Invalid mcpServers format"
        Except.ok [("a", Json.null)] (Json.obj []) =
        Except.error "Source and target must be different" ∧
      sync_mcp_from_agent_disk "claude" "claude" "mcpServers" "Invalid mcpServers format"
        Except.ok [("a", Json.null)] (Json.obj []) = Json.obj []) :=
  ⟨rfl,
    (sync_same_source_target_rejected "claude" "claude" rfl).1 true (Except.ok ())
      (fun _ => true) ["a"] ["b"],
    (sync_same_source_target_rejected "claude" "claude" rfl).2 "mcpServers"
      "Invalid mcpServers format" Except.ok [("a", Json.null)] (Json.obj [])⟩

theorem sync_skills_loop_spec (canonOk : String → Bool) (src : List String) :
    ∀ target added skipped, src.Nodup → (∀ id ∈ src, canonOk id = true) →
      sync_skills_loop canonOk src target added skipped =
        Except.ok (added + (src.filter (fun id => !target.contains id)).length,
          skipped + (src.filter (fun id => target.contains id)).length,
          (src.filter (fun id => !target.contains id)).reverse ++ target) := by
  induction src with
  | nil => intro target added skipped _ _; simp [sync_skills_loop]
  | cons id rest ih =>
    intro target added skipped hnd hcan
    rw [List.nodup_cons] at hnd
    have hcid : canonOk id = true := hcan id (List.mem_cons_self id rest)
    have hcrest : ∀ x ∈ rest, canonOk x = true :=
      fun x hx => hcan x (List.mem_cons_of_mem id hx)
    simp only [sync_skills_loop, hcid, Bool.not_true, Bool.false_eq_true, if_false]
    by_cases hmem : id ∈ target
    · have hmemb : target.contains id = true := by simpa using hmem
      rw [if_pos hmemb, ih target added (skipped + 1) hnd.2 hcrest]
      have hfneg : (id :: rest).filter (fun x => !target.contains x) =
          rest.filter (fun x => !target.contains x) := by
        rw [List.filter_cons]
        simp [hmem]
      have hfpos : (id :: rest).filter (fun x => target.contains x) =
          id :: rest.filter (fun x => target.contains x) := by
        rw [List.filter_cons]
        simp [hmem]
      rw [hfneg, hfpos]
      have harith : skipped + 1 + (rest.filter (fun x => target.contains x)).length =
          skipped + (id :: rest.filter (fun x => target.contains x)).length := by
        simp only [List.length_cons]
        omega
      rw [harith]
    · have hmemb : target.contains id = false := by simpa using hmem
      rw [if_neg (by simp [hmem]), ih (id :: target) (added + 1) skipped hnd.2 hcrest]
      have hc1 : rest.filter (fun x => !(id :: target).contains x) =
          rest.filter (fun x => !target.contains x) := by
        apply List.filter_congr
        intro x hx
        have hxid : ¬ x = id := fun h => hnd.1 (h ▸ hx)
        simp [hxid]
      have hc2 : rest.filter (fun x => (id :: target).contains x) =
          rest.filter (fun x => target.contains x) := by
        apply List.filter_congr
        intro x hx
        have hxid : ¬ x = id := fun h => hnd.1 (h ▸ hx)
        simp [hxid]
      have hfneg : (id :: rest).filter (fun x => !target.contains x) =
          id :: rest.filter (fun x => !target.contains x) := by
        rw [List.filter_cons]
        simp [hmem]
      have hfpos : (id :: rest).filter (fun x => target.contains x) =
          rest.filter (fun x => target.contains x) := by
        rw [List.filter_cons]
        simp [hmem]
      rw [hc1, hc2, hfneg, hfpos]
      have harith : added + 1 + (rest.filter (fun x => !target.contains x)).length =
          added + (id :: rest.filter (fun x => !target.contains x)).length := by
        simp only [List.length_cons]
        omega
      rw [harith, List.reverse_cons, List.append_assoc]
      rfl

theorem sync_mcp_split_spec (existingIds : List String) (src : List (String × Json)) :
    sync_mcp_split existingIds src =
      ((src.filter (fun p => !existingIds.contains p.1)).length,
        (src.filter (fun p => existingIds.contains p.1)).length,
        src.filter (fun p => !existingIds.contains p.1)) := by
  induction src with
  | nil => rfl
  | cons hd rest ih =>
    obtain ⟨id, cfg⟩ := hd
    simp only [sync_mcp_split, ih]
    by_cases hmem : id ∈ existingIds
    · simp [List.filter_cons, hmem]
    · simp [List.filter_cons, hmem]

theorem upsert_entries_ok {β : Type} (convert : Json → Except String β)
    (servers : List (String × Json))
    (hok : ∀ p ∈ servers, ∃ cv, convert p.2 = Except.ok cv) :
    ∀ table, ∃ table2, upsert_entries convert table servers = Except.ok table2 := by
  induction servers with
  | nil => intro table; exact ⟨table, rfl⟩
  | cons hd rest ih =>
    obtain ⟨i, c⟩ := hd
    intro table
    obtain ⟨cv, hcv⟩ := hok (i, c) (List.mem_cons_self _ _)
    obtain ⟨table2, h2⟩ :=
      ih (fun p hp => hok p (List.mem_cons_of_mem _ hp)) (ainsert table i cv)
    exact ⟨table2, by simp only [upsert_entries, hcv, h2]⟩

theorem upsert_mcp_servers_json_ok (containerKey invalidMsg : String)
    (convert : Json → Except String Json) (root : JObj)
    (servers : List (String × Json))
    (hcon : alookup root containerKey = none ∨
      ∃ m, alookup root containerKey = some (Json.obj m))
    (hok : ∀ p ∈ servers, ∃ cv, convert p.2 = Except.ok cv) :
    ∃ table table2,
      (alookup root containerKey = none ∧ table = [] ∨
        alookup root containerKey = some (Json.obj table)) ∧
      upsert_entries convert table servers = Except.ok table2 ∧
      upsert_mcp_servers_json containerKey invalidMsg convert (Json.obj root) servers =
        Except.ok (Json.obj (ainsert root containerKey (Json.obj table2))) := by
  rcases hcon with hnone | ⟨m, hm⟩
  · obtain ⟨table2, h2⟩ := upsert_entries_ok convert servers hok []
    exact ⟨[], table2, Or.inl ⟨hnone, rfl⟩, h2,
      by simp only [upsert_mcp_servers_json, hnone, h2]⟩
  · obtain ⟨table2, h2⟩ := upsert_entries_ok convert servers hok m
    exact ⟨m, table2, Or.inr hm, h2,
      by simp only [upsert_mcp_servers_json, hm, h2]⟩

theorem upsert_entries_mem_keys {β : Type} (convert : Json → Except String β)
    (servers : List (String × Json)) (hnd : (servers.map Prod.fst).Nodup) :
    ∀ table table2, upsert_entries convert table servers = Except.ok table2 →
      ∀ id, id ∈ akeys table2 ↔ id ∈ servers.map Prod.fst ∨ id ∈ akeys table := by
  intro table table2 hup id
  by_cases hidm : id ∈ servers.map Prod.fst
  · refine ⟨fun _ => Or.inl hidm, fun _ => ?_⟩
    obtain ⟨p, hp, hpe⟩ := List.mem_map.mp hidm
    obtain ⟨cv, _, hlook⟩ := upsert_entries_mem convert servers hnd table table2 hup
      p.1 p.2 (by rw [Prod.mk.eta]; exact hp)
    rw [← alookup_isSome_iff_mem_keys, ← hpe, hlook]
    rfl
  · rw [← alookup_isSome_iff_mem_keys,
      upsert_entries_frame convert servers table table2 hup id hidm,
      alookup_isSome_iff_mem_keys]
    simp [hidm]

/-- C5: the add-only merge.  For skills: every source identifier already in
the target is skipped and left untouched, every other one is copied and
counted added, the resulting target contains exactly the union, and a second
run of the same sync adds nothing and skips every source item.  For MCP
servers against a JSON target document (any container key and conversion):
the same counting, membership and idempotence facts. -/
theorem sync_add_only_merge :
    (∀ sourceId targetId canonOk src target,
      sourceId ≠ targetId → src.Nodup → (∀ id ∈ src, canonOk id = true) →
      ∃ tgt2,
        sync_skills_from_agent sourceId targetId true (Except.ok ()) canonOk src target =
          Except.ok ((src.filter (fun id => !target.contains id)).length,
            (src.filter (fun id => target.contains id)).length, tgt2) ∧
        (∀ id, id ∈ tgt2 ↔ id ∈ src ∨ id ∈ target) ∧
        sync_skills_from_agent sourceId targetId true (Except.ok ()) canonOk src tgt2 =
          Except.ok (0, src.length, tgt2)) ∧
    (∀ sourceId targetId containerKey invalidMsg convert src root,
      sourceId ≠ targetId → (src.map Prod.fst).Nodup →
      (alookup root containerKey = none ∨
        ∃ m, alookup root containerKey = some (Json.obj m)) →
      (∀ p ∈ src, ∃ cv, convert p.2 = Except.ok cv) →
      ∃ doc2,
        sync_mcp_from_agent sourceId targetId containerKey invalidMsg convert src
            (Json.obj root) =
          Except.ok
            ((src.filter (fun p =>
              !(read_container_ids (Json.obj root) containerKey).contains p.1)).length,
             (src.filter (fun p =>
              (read_container_ids (Json.obj root) containerKey).contains p.1)).length,
             doc2) ∧
        (∀ id, id ∈ read_container_ids doc2 containerKey ↔
          id ∈ src.map Prod.fst ∨
            id ∈ read_container_ids (Json.obj root) containerKey) ∧
        sync_mcp_from_agent sourceId targetId containerKey invalidMsg convert src doc2 =
          Except.ok (0, src.length, doc2)) := by
  constructor
  · intro sourceId targetId canonOk src target hne hnd hcan
    have hloop := sync_skills_loop_spec canonOk src target 0 0 hnd hcan
    refine ⟨(src.filter (fun id => !target.contains id)).reverse ++ target, ?_, ?_, ?_⟩
    · simp only [sync_skills_from_agent.eq_def, if_neg hne, Bool.not_true,
        Bool.false_eq_true, if_false]
      rw [hloop]
      simp
    · intro id
      by_cases hidt : id ∈ target <;> simp [hidt, List.mem_filter]
    · have hsub : ∀ id ∈ src, id ∈
          (src.filter (fun id => !target.contains id)).reverse ++ target := by
        intro id hid
        by_cases hidt : id ∈ target <;> simp [hidt, List.mem_filter, hid]
      have hsubB : ∀ id ∈ src,
          ((src.filter (fun id => !target.contains id)).reverse ++ target).contains id
            = true := fun id h => by simpa using hsub id h
      simp only [sync_skills_from_agent.eq_def, if_neg hne, Bool.not_true,
        Bool.false_eq_true, if_false]
      rw [sync_skills_loop_spec canonOk src _ 0 0 hnd hcan]
      have hf1 : src.filter (fun id =>
          !((src.filter (fun id => !target.contains id)).reverse ++ target).contains id)
            = [] := by
        rw [List.filter_eq_nil_iff]
        intro a ha
        rw [hsubB a ha]
        simp
      have hf2 : src.filter (fun id =>
          ((src.filter (fun id => !target.contains id)).reverse ++ target).contains id)
            = src := by
        rw [List.filter_eq_self]
        intro a ha
        exact hsubB a ha
      rw [hf1, hf2]
      simp
  · intro sourceId targetId containerKey invalidMsg convert src root hne hnd hcon hok
    by_cases hempty :
        (src.filter (fun p =>
          !(read_container_ids (Json.obj root) containerKey).contains p.1)) = []
    · have hall : ∀ p ∈ src,
          p.1 ∈ read_container_ids (Json.obj root) containerKey := by
        rw [List.filter_eq_nil_iff] at hempty
        intro p hp
        have := hempty p hp
        simpa using this
      refine ⟨Json.obj root, ?_, ?_, ?_⟩
      · simp only [sync_mcp_from_agent, if_neg hne, sync_mcp_split_spec, hempty,
          List.isEmpty_nil, if_true]
      · intro id
        constructor
        · intro h; exact Or.inr h
        · intro h
          rcases h with h | h
          · obtain ⟨p, hp, hpe⟩ := List.mem_map.mp h
            exact hpe ▸ hall p hp
          · exact h
      · simp only [sync_mcp_from_agent, if_neg hne, sync_mcp_split_spec, hempty,
          List.isEmpty_nil, if_true]
        have hf2 : src.filter (fun p =>
            (read_container_ids (Json.obj root) containerKey).contains p.1) = src := by
          rw [List.filter_eq_self]
          intro p hp
          simpa using hall p hp
        rw [hf2]
        simp
    · have hnd2 : ((src.filter (fun p =>
          !(read_container_ids (Json.obj root) containerKey).contains p.1)).map
            Prod.fst).Nodup :=
        ((List.filter_sublist src).map Prod.fst).nodup hnd
      have hok2 : ∀ p ∈ src.filter (fun p =>
          !(read_container_ids (Json.obj root) containerKey).contains p.1),
          ∃ cv, convert p.2 = Except.ok cv :=
        fun p hp => hok p (List.mem_of_mem_filter hp)
      obtain ⟨table, table2, hcontab, hup, hdoc⟩ :=
        upsert_mcp_servers_json_ok containerKey invalidMsg convert root _ hcon hok2
      have hexeq : read_container_ids (Json.obj root) containerKey = akeys table := by
        rcases hcontab with ⟨hnone, htab⟩ | hm
        · rw [read_container_ids, jget, hnone, htab]
          rfl
        · rw [read_container_ids, jget, hm]
      have hread2 : read_container_ids
          (Json.obj (ainsert root containerKey (Json.obj table2))) containerKey =
            akeys table2 := by
        rw [read_container_ids, jget, alookup_ainsert_self]
      have hmemkeys := upsert_entries_mem_keys convert _ hnd2 table table2 hup
      have hmem2 : ∀ id, id ∈ akeys table2 ↔
          id ∈ src.map Prod.fst ∨
            id ∈ read_container_ids (Json.obj root) containerKey := by
        intro id
        rw [hmemkeys id, ← hexeq]
        constructor
        · rintro (h | h)
          · obtain ⟨p, hp, hpe⟩ := List.mem_map.mp h
            exact Or.inl (List.mem_map.mpr ⟨p, List.mem_of_mem_filter hp, hpe⟩)
          · exact Or.inr h
        · rintro (h | h)
          · by_cases hid : id ∈ read_container_ids (Json.obj root) containerKey
            · exact Or.inr hid
            · obtain ⟨p, hp, hpe⟩ := List.mem_map.mp h
              refine Or.inl (List.mem_map.mpr ⟨p, List.mem_filter.mpr ⟨hp, ?_⟩, hpe⟩)
              simp [hpe, hid]
          · exact Or.inr h
      refine ⟨Json.obj (ainsert root containerKey (Json.obj table2)), ?_, ?_, ?_⟩
      · simp only [sync_mcp_from_agent, if_neg hne, sync_mcp_split_spec]
        have hie : (src.filter (fun p =>
            !(read_container_ids (Json.obj root) containerKey).contains p.1)).isEmpty
              = false := by
          cases hx : src.filter (fun p =>
              !(read_container_ids (Json.obj root) containerKey).contains p.1) with
          | nil => exact absurd hx hempty
          | cons a as => rfl
        rw [hie]
        simp only [Bool.false_eq_true, if_false, hdoc]
      · intro id
        rw [hread2]
        exact hmem2 id
      · simp only [sync_mcp_from_agent, if_neg hne, sync_mcp_split_spec]
        have hall2 : ∀ p ∈ src, p.1 ∈ read_container_ids
            (Json.obj (ainsert root containerKey (Json.obj table2))) containerKey := by
          intro p hp
          rw [hread2]
          exact (hmem2 p.1).mpr (Or.inl (List.mem_map.mpr ⟨p, hp, rfl⟩))
        have hf1 : src.filter (fun p =>
            !(read_container_ids (Json.obj (ainsert root containerKey
              (Json.obj table2))) containerKey).contains p.1) = [] := by
          rw [List.filter_eq_nil_iff]
          intro p hp
          simp [hall2 p hp]
        have hf2 : src.filter (fun p =>
            (read_container_ids (Json.obj (ainsert root containerKey
              (Json.obj table2))) containerKey).contains p.1) = src := by
          rw [List.filter_eq_self]
          intro p hp
          simpa using hall2 p hp
        rw [hf1, hf2]
        simp

/-- C5 witness: source `{a, b}` and target `{b}` yield added = 1, skipped = 1,
a target containing exactly `{a, b}`, and a second run yields added = 0,
skipped = 2 — for skills and for MCP servers. -/
theorem sync_add_only_merge_witness :
    (∃ tgt2,
      sync_skills_from_agent "roo" "claude" true (Except.ok ()) (fun _ => true)
          ["a", "b"] ["b"] = Except.ok (1, 1, tgt2) ∧
      (∀ id, id ∈ tgt2 ↔ id ∈ ["a", "b"] ∨ id ∈ ["b"]) ∧
      sync_skills_from_agent "roo" "claude" true (Except.ok ()) (fun _ => true)
          ["a", "b"] tgt2 = Except.ok (0, 2, tgt2)) ∧
    (∃ doc2,
      sync_mcp_from_agent "roo" "claude" "mcpServers" "Invalid mcpServers format"
          Except.ok [("a", Json.obj []), ("b", Json.obj [])]
          (Json.obj [("mcpServers", Json.obj [("b", Json.obj [])])]) =
        Except.ok (1, 1, doc2) ∧
      (∀ id, id ∈ read_container_ids doc2 "mcpServers" ↔
        id ∈ ["a", "b"] ∨ id ∈ read_container_ids
          (Json.obj [("mcpServers", Json.obj [("b", Json.obj [])])]) "mcpServers") ∧
      sync_mcp_from_agent "roo" "claude" "mcpServers" "Invalid mcpServers format"
          Except.ok [("a", Json.obj []), ("b", Json.obj [])] doc2 =
        Except.ok (0, 2, doc2)) :=
  ⟨sync_add_only_merge.1 "roo" "claude" (fun _ => true) ["a", "b"] ["b"]
      (by decide) (by decide) (fun id _ => rfl),
    sync_add_only_merge.2 "roo" "claude" "mcpServers" "Invalid mcpServers format"
      Except.ok [("a", Json.obj []), ("b", Json.obj [])]
      [("mcpServers", Json.obj [("b", Json.obj [])])]
      (by decide) (by decide) (Or.inr ⟨[("b", Json.obj [])], rfl⟩)
      (fun p _ => ⟨p.2, rfl⟩)⟩

/-! ## Branch Resolver: `github_branch_candidates` -/

/-- `github_branch_candidates`: `branch` is the location's explicit branch;
`defaultBranch` is the outcome of `fetch_github_default_branch`. -/
def github_branch_candidates (branch : Option String)
    (defaultBranch : Except String String) : List String :=
  match branch with
  | some b => [b]
  | none =>
    let branches : List String := []
    let branches :=
      match defaultBranch with
      | Except.ok d => branches ++ [d]
      | Except.error _ => branches
    let branches :=
      if branches.contains "main" then branches else branches ++ ["main"]
    let branches :=
      if branches.contains "master" then branches else branches ++ ["master"]
    if branches.isEmpty then ["main"] else branches

/-- C6: with an explicit branch the candidate list is exactly that branch;
without one it is duplicate-free, non-empty, starts with the queried default
branch when the query succeeds, followed by "main" then "master" when not
already present, and equals ["main", "master"] when the query fails. -/
theorem github_branch_candidates_spec (branch : Option String)
    (defaultBranch : Except String String) :
    (∀ b, branch = some b → github_branch_candidates branch defaultBranch = [b]) ∧
    (branch = none →
      (github_branch_candidates branch defaultBranch).Nodup ∧
      github_branch_candidates branch defaultBranch ≠ [] ∧
      (∀ d, defaultBranch = Except.ok d →
        github_branch_candidates branch defaultBranch =
          [d] ++ (if d = "main" then [] else ["main"]) ++
            (if d = "master" then [] else ["master"])) ∧
      (∀ e, defaultBranch = Except.error e →
        github_branch_candidates branch defaultBranch = ["main", "master"])) := by
  constructor
  · intro b hb
    rw [hb]
    rfl
  · intro hb
    subst hb
    cases defaultBranch with
    | error e =>
      refine ⟨?_, ?_, ?_, ?_⟩
      · simp [github_branch_candidates]
      · simp [github_branch_candidates]
      · intro d hd
        cases hd
      · intro e2 _
        rfl
    | ok d =>
      have hchar : github_branch_candidates none (Except.ok d) =
          [d] ++ (if d = "main" then [] else ["main"]) ++
            (if d = "master" then [] else ["master"]) := by
        by_cases hd1 : d = "main"
        · subst hd1
          rfl
        · by_cases hd2 : d = "master"
          · subst hd2
            rfl
          · simp only [github_branch_candidates]
            have hd1s : ¬ "main" = d := fun h => hd1 h.symm
            have hd2s : ¬ "master" = d := fun h => hd2 h.symm
            have h1 : ([] ++ [d]).contains "main" = false := by
              simp [hd1s]
            have h2 : (([] ++ [d]) ++ ["main"]).contains "master" = false := by
              simp [hd2s]
            rw [h1]
            simp only [Bool.false_eq_true, if_false]
            rw [h2]
            simp [hd1, hd2]
      refine ⟨?_, ?_, ?_, ?_⟩
      · rw [hchar]
        by_cases hd1 : d = "main" <;> by_cases hd2 : d = "master" <;>
          simp [hd1, hd2]
      · rw [hchar]
        simp
      · intro d2 hd2
        cases hd2
        exact hchar
      · intro e2 he2
        cases he2

/-- C6 witness: with no explicit branch and queried default "develop" the
candidates are ["develop", "main", "master"]; with explicit branch "v2" they
are exactly ["v2"]. -/
theorem github_branch_candidates_spec_witness :
    github_branch_candidates (some "v2") (Except.error "boom") = ["v2"] ∧
    github_branch_candidates none (Except.ok "develop") =
      ["develop"] ++ (if "develop" = "main" then [] else ["main"]) ++
        (if "develop" = "master" then [] else ["master"]) ∧
    (github_branch_candidates none (Except.ok "develop")).Nodup ∧
    github_branch_candidates none (Except.ok "develop") ≠ [] ∧
    github_branch_candidates none (Except.error "boom") = ["main", "master"] :=
  ⟨(github_branch_candidates_spec (some "v2") (Except.error "boom")).1 "v2" rfl,
    ((github_branch_candidates_spec none (Except.ok "develop")).2 rfl).2.2.1
      "develop" rfl,
    ((github_branch_candidates_spec none (Except.ok "develop")).2 rfl).1,
    ((github_branch_candidates_spec none (Except.ok "develop")).2 rfl).2.1,
    ((github_branch_candidates_spec none (Except.error "boom")).2 rfl).2.2.2
      "boom" rfl⟩

/-! ## Location Resolver: `parse_skill_urls` and `parse_github_location` -/

/-- `str::trim` (drop leading and trailing whitespace). -/
def str_trim (s : String) : String :=
  String.mk (((s.data.dropWhile Char.isWhitespace).reverse.dropWhile
    Char.isWhitespace).reverse)

/-- `str::starts_with`. -/
def str_starts_with (s pre : String) : Bool :=
  pre.data.isPrefixOf s.data

/-- `str::ends_with`. -/
def str_ends_with (s suffix : String) : Bool :=
  suffix.data.reverse.isPrefixOf s.data.reverse

/-- `str::split('/')`, keeping empty pieces (they are filtered later). -/
def split_slash_go : List Char → List Char → List String
  | [], acc => [String.mk acc.reverse]
  | '/' :: rest, acc => String.mk acc.reverse :: split_slash_go rest []
  | c :: rest, acc => split_slash_go rest (c :: acc)

def split_slash (s : String) : List String :=
  split_slash_go s.data []

/-- The view of a parsed URL that the resolver consumes (`Url::host_str()`
and `Url::path()`).  `Url::parse` itself is supplied as an oracle
`String → Option UrlView`. -/
structure UrlView where
  host : Option String
  path : String

/-- `str::trim_start_matches("www.")` (repeatedly strips the pattern). -/
def strip_www_chars : List Char → List Char
  | 'w' :: 'w' :: 'w' :: '.' :: rest => strip_www_chars rest
  | l => l

def strip_www (s : String) : String :=
  String.mk (strip_www_chars s.data)

/-- `parsed.path().split('/').filter(|s| !s.is_empty())`. -/
def url_segments (path : String) : List String :=
  (split_slash path).filter (fun seg => seg ≠ "")

/-- `str::trim_end_matches('/')`. -/
def trim_trailing_slashes (s : String) : String :=
  String.mk (s.data.reverse.dropWhile (fun c => c = '/')).reverse

/-- `str::trim_end_matches(".git")` (repeatedly strips the suffix),
working on the reversed character list. -/
def strip_git_suffix_rev : List Char → List Char
  | 't' :: 'i' :: 'g' :: '.' :: rest => strip_git_suffix_rev rest
  | l => l

def trim_dot_git (s : String) : String :=
  String.mk (strip_git_suffix_rev s.data.reverse).reverse

/-- `str::rsplit_once('/')`. -/
def rsplit_once_slash (s : String) : Option (String × String) :=
  match split_slash s with
  | [] => none
  | [_] => none
  | parts => some (String.intercalate "/" parts.dropLast, (parts.getLast?).getD "")

/-- The Rust `GithubLocation` struct. -/
structure GithubLocation where
  owner : String
  repo : String
  branch : Option String
  path : String

/-- The two-candidate list built by `parse_skill_urls` for a
repository-browser URL without an explicit branch (`restSegs` is
`segments[2..]`). -/
def github_skill_urls_general (owner repo coreFile : String)
    (restSegs : List String) : List String :=
  let subpath := String.intercalate "/" restSegs
  let filePath :=
    if subpath = "" then coreFile
    else if str_ends_with subpath coreFile then subpath
    else subpath ++ "/" ++ coreFile
  ["https://raw.githubusercontent.com/" ++ owner ++ "/" ++ repo ++ "/main/" ++ filePath,
   "https://raw.githubusercontent.com/" ++ owner ++ "/" ++ repo ++ "/master/" ++ filePath]

/-- The candidate URLs built by `parse_skill_urls` for a repository-browser
URL (`restSegs` is `segments[2..]`). -/
def github_skill_urls (owner repo coreFile : String)
    (restSegs : List String) : List String :=
  match restSegs with
  | seg2 :: branchSeg :: rest4 =>
    if seg2 = "tree" ∨ seg2 = "blob" then
      let subpath := String.intercalate "/" rest4
      let filePath :=
        if subpath = "" then coreFile
        else if str_ends_with subpath coreFile then subpath
        else subpath ++ "/" ++ coreFile
      ["https://raw.githubusercontent.com/" ++ owner ++ "/" ++ repo ++ "/" ++ branchSeg ++
        "/" ++ filePath]
    else github_skill_urls_general owner repo coreFile restSegs
  | _ => github_skill_urls_general owner repo coreFile restSegs

/-- `parse_skill_urls` (`parse` stands for `Url::parse` applied to the
trimmed input). -/
def parse_skill_urls (parse : String → Option UrlView) (input coreFile : String) :
    Except String (List String) :=
  let trimmed := str_trim input
  if trimmed = "" then Except.error "URL is required"
  else if !(str_starts_with trimmed "http://" || str_starts_with trimmed "https://") then
    Except.error "URL must start with http:// or https://"
  else
    match parse trimmed with
    | none => Except.error "Invalid URL"
    | some parsed =>
      let host := strip_www (parsed.host.getD "")
      let segments := url_segments parsed.path
      if host = "raw.githubusercontent.com" then
        let url := trim_trailing_slashes trimmed
        let url := if str_ends_with url coreFile then url else url ++ "/" ++ coreFile
        Except.ok [url]
      else if host = "github.com" then
        match segments with
        | ownerSeg :: repoSeg :: restSegs =>
          Except.ok (github_skill_urls ownerSeg (trim_dot_git repoSeg) coreFile restSegs)
        | _ => Except.error "GitHub URL must include owner and repo"
      else
        let url := trim_trailing_slashes trimmed
        let url := if str_ends_with url coreFile then url else url ++ "/" ++ coreFile
        Except.ok [url]

/-- The repository-browser (`github.com`) arm of `parse_github_location`,
given the owner segment, repo segment and remaining path segments. -/
def github_location_of_segments (ownerSeg repoSeg : String)
    (restSegs : List String) : GithubLocation :=
  match restSegs with
  | seg2 :: branchSeg :: rest4 =>
    if seg2 = "tree" ∨ seg2 = "blob" then
      let path0 := String.intercalate "/" rest4
      let path1 :=
        if seg2 = "blob" then
          match rsplit_once_slash path0 with
          | some (dir, _) => dir
          | none => ""
        else path0
      GithubLocation.mk ownerSeg (trim_dot_git repoSeg) (some branchSeg) path1
    else
      GithubLocation.mk ownerSeg (trim_dot_git repoSeg) none
        (String.intercalate "/" restSegs)
  | _ =>
    GithubLocation.mk ownerSeg (trim_dot_git repoSeg) none
      (String.intercalate "/" restSegs)

/-- `parse_github_location` (`parse` stands for `Url::parse` applied to the
trimmed input). -/
def parse_github_location (parse : String → Option UrlView) (input : String) :
    Except String GithubLocation :=
  let trimmed := str_trim input
  match parse trimmed with
  | none => Except.error "Invalid URL"
  | some parsed =>
    let host := strip_www (parsed.host.getD "")
    let segments := url_segments parsed.path
    if host = "raw.githubusercontent.com" then
      match segments with
      | ownerSeg :: repoSeg :: branchSeg :: restSegs =>
        Except.ok (GithubLocation.mk ownerSeg (trim_dot_git repoSeg)
          (some branchSeg) (String.intercalate "/" restSegs))
      | _ => Except.error "Raw GitHub URL must include owner/repo/branch"
    else if host ≠ "github.com" then Except.error "Not a GitHub URL"
    else
      match segments with
      | ownerSeg :: repoSeg :: restSegs =>
        Except.ok (github_location_of_segments ownerSeg repoSeg restSegs)
      | _ => Except.error "GitHub URL must include owner and repo"

/-- C7 counterexample: `https://example.com/a/b` starts with an http(s)
scheme, parses as a URL, and is not a repository-browser URL, yet
`parse_github_location` fails on it ("Not a GitHub URL") instead of
succeeding as the claim states for the Location Resolver pair. -/
theorem location_resolver_counterexample :
    str_starts_with (str_trim "https://example.com/a/b") "https://" = true ∧
    (fun s => if s = "https://example.com/a/b"
        then some (UrlView.mk (some "example.com") "/a/b") else none)
      (str_trim "https://example.com/a/b") =
        some (UrlView.mk (some "example.com") "/a/b") ∧
    strip_www "example.com" ≠ "github.com" ∧
    parse_github_location
      (fun s => if s = "https://example.com/a/b"
        then some (UrlView.mk (some "example.com") "/a/b") else none)
      "https://example.com/a/b" = Except.error "Not a GitHub URL" := by
  refine ⟨by decide, rfl, by decide, rfl⟩

/-- C7: validation behavior of the Location Resolver.  `parse_skill_urls`
succeeds exactly when the trimmed input has an http(s) scheme, parses as a
URL, and is not a repository-browser (github.com) URL with fewer than two
path segments; `parse_github_location` performs no scheme check and
succeeds exactly when the URL parses and its host is the raw-content host
with at least three segments or the repository-browser host with at least
two — in particular it fails on every other host, contrary to the claim
that a parsed non-GitHub URL "succeeds". -/
theorem location_resolver_validation (parse : String → Option UrlView)
    (input coreFile : String) :
    (parse (str_trim input) = none →
      ∃ e, parse_skill_urls parse input coreFile = Except.error e) ∧
    (∀ v, parse (str_trim input) = some v →
      ((∃ urls, parse_skill_urls parse input coreFile = Except.ok urls) ↔
        ((str_starts_with (str_trim input) "http://" ||
            str_starts_with (str_trim input) "https://") = true ∧
          ¬ (strip_www (v.host.getD "") = "github.com" ∧
            (url_segments v.path).length < 2)))) ∧
    (parse (str_trim input) = none →
      ∃ e, parse_github_location parse input = Except.error e) ∧
    (∀ v, parse (str_trim input) = some v →
      ((∃ loc, parse_github_location parse input = Except.ok loc) ↔
        ((strip_www (v.host.getD "") = "raw.githubusercontent.com" ∧
            3 ≤ (url_segments v.path).length) ∨
          (strip_www (v.host.getD "") ≠ "raw.githubusercontent.com" ∧
            strip_www (v.host.getD "") = "github.com" ∧
            2 ≤ (url_segments v.path).length)))) := by
  refine ⟨?_, ?_, ?_, ?_⟩
  · intro hp
    simp only [parse_skill_urls]
    by_cases h0 : str_trim input = ""
    · rw [if_pos h0]
      exact ⟨_, rfl⟩
    · rw [if_neg h0]
      by_cases h1 : (str_starts_with (str_trim input) "http://" ||
          str_starts_with (str_trim input) "https://") = true
      · rw [h1]
        simp only [Bool.not_true, Bool.false_eq_true, if_false, hp]
        exact ⟨_, rfl⟩
      · have h1f : (str_starts_with (str_trim input) "http://" ||
            str_starts_with (str_trim input) "https://") = false := by
          revert h1
          cases str_starts_with (str_trim input) "http://" ||
            str_starts_with (str_trim input) "https://" <;> simp
        rw [h1f]
        exact ⟨_, rfl⟩
  · intro v hv
    simp only [parse_skill_urls, hv]
    by_cases h0 : str_trim input = ""
    · rw [if_pos h0]
      constructor
      · rintro ⟨urls, h⟩
        cases h
      · rintro ⟨hs, _⟩
        rw [h0] at hs
        exact absurd hs (by decide)
    · rw [if_neg h0]
      by_cases h1 : (str_starts_with (str_trim input) "http://" ||
          str_starts_with (str_trim input) "https://") = true
      · rw [h1]
        simp only [Bool.not_true, Bool.false_eq_true, if_false]
        by_cases h2 : strip_www (v.host.getD "") = "raw.githubusercontent.com"
        · rw [if_pos h2]
          constructor
          · intro _
            refine ⟨trivial, ?_⟩
            rintro ⟨hg, _⟩
            exact absurd (h2.symm.trans hg) (by decide)
          · intro _
            exact ⟨_, rfl⟩
        · rw [if_neg h2]
          by_cases h3 : strip_www (v.host.getD "") = "github.com"
          · rw [if_pos h3]
            cases hseg : url_segments v.path with
            | nil =>
              constructor
              · rintro ⟨urls, h⟩
                cases h
              · rintro ⟨_, hn⟩
                exact absurd ⟨h3, by simp only [List.length_cons, List.length_nil]; omega⟩ hn
            | cons a tl =>
              cases tl with
              | nil =>
                constructor
                · rintro ⟨urls, h⟩
                  cases h
                · rintro ⟨_, hn⟩
                  exact absurd ⟨h3, by simp only [List.length_cons, List.length_nil]; omega⟩ hn
              | cons b tl2 =>
                constructor
                · intro _
                  refine ⟨trivial, ?_⟩
                  rintro ⟨_, hlen⟩
                  simp only [List.length_cons] at hlen
                  omega
                · intro _
                  exact ⟨_, rfl⟩
          · rw [if_neg h3]
            constructor
            · intro _
              exact ⟨trivial, fun hc => h3 hc.1⟩
            · intro _
              exact ⟨_, rfl⟩
      · have h1f : (str_starts_with (str_trim input) "http://" ||
            str_starts_with (str_trim input) "https://") = false := by
          revert h1
          cases str_starts_with (str_trim input) "http://" ||
            str_starts_with (str_trim input) "https://" <;> simp
        rw [h1f]
        simp
  · intro hp
    simp only [parse_github_location, hp]
    exact ⟨_, rfl⟩
  · intro v hv
    simp only [parse_github_location, hv]
    by_cases h2 : strip_www (v.host.getD "") = "raw.githubusercontent.com"
    · rw [if_pos h2]
      cases hseg : url_segments v.path with
      | nil =>
        constructor
        · rintro ⟨loc, h⟩
          cases h
        · rintro (⟨_, hlen⟩ | ⟨hne, _, _⟩)
          · exact absurd hlen (by simp only [List.length_cons, List.length_nil]; omega)
          · exact absurd h2 hne
      | cons a tl =>
        cases tl with
        | nil =>
          constructor
          · rintro ⟨loc, h⟩
            cases h
          · rintro (⟨_, hlen⟩ | ⟨hne, _, _⟩)
            · exact absurd hlen (by simp only [List.length_cons, List.length_nil]; omega)
            · exact absurd h2 hne
        | cons b tl2 =>
          cases tl2 with
          | nil =>
            constructor
            · rintro ⟨loc, h⟩
              cases h
            · rintro (⟨_, hlen⟩ | ⟨hne, _, _⟩)
              · exact absurd hlen (by simp only [List.length_cons, List.length_nil]; omega)
              · exact absurd h2 hne
          | cons c tl3 =>
            constructor
            · intro _
              refine Or.inl ⟨h2, ?_⟩
              simp only [List.length_cons]
              omega
            · intro _
              exact ⟨_, rfl⟩
    · rw [if_neg h2]
      by_cases h3 : strip_www (v.host.getD "") = "github.com"
      · rw [if_neg (not_not_intro h3)]
        cases hseg : url_segments v.path with
        | nil =>
          constructor
          · rintro ⟨loc, h⟩
            cases h
          · rintro (⟨hr, _⟩ | ⟨_, _, hlen⟩)
            · exact absurd hr h2
            · exact absurd hlen (by simp only [List.length_cons, List.length_nil]; omega)
        | cons a tl =>
          cases tl with
          | nil =>
            constructor
            · rintro ⟨loc, h⟩
              cases h
            · rintro (⟨hr, _⟩ | ⟨_, _, hlen⟩)
              · exact absurd hr h2
              · exact absurd hlen (by simp only [List.length_cons, List.length_nil]; omega)
          | cons b tl2 =>
            constructor
            · intro _
              refine Or.inr ⟨h2, h3, ?_⟩
              simp only [List.length_cons]
              omega
            · intro _
              exact ⟨_, rfl⟩
      · rw [if_pos h3]
        constructor
        · rintro ⟨loc, h⟩
          cases h
        · rintro (⟨hr, _⟩ | ⟨_, hg, _⟩)
          · exact absurd hr h2
          · exact absurd hg h3

/-- Witness for the C7 theorem at concrete inputs: a parsed github.com URL
with two segments succeeds in both functions, and an unparseable input
fails in both. -/
theorem location_resolver_validation_witness :
    (∃ urls, parse_skill_urls
        (fun s => if s = "https://github.com/o/r"
          then some (UrlView.mk (some "github.com") "/o/r") else none)
        "https://github.com/o/r" "SKILL.md" = Except.ok urls) ∧
    (∃ loc, parse_github_location
        (fun s => if s = "https://github.com/o/r"
          then some (UrlView.mk (some "github.com") "/o/r") else none)
        "https://github.com/o/r" = Except.ok loc) ∧
    (∃ e, parse_skill_urls (fun _ => none) "https://nope" "SKILL.md" =
      Except.error e) ∧
    (∃ e, parse_github_location (fun _ => none) "https://nope" =
      Except.error e) := by
  refine ⟨?_, ?_, ?_, ?_⟩
  · exact ((location_resolver_validation
        (fun s => if s = "https://github.com/o/r"
          then some (UrlView.mk (some "github.com") "/o/r") else none)
        "https://github.com/o/r" "SKILL.md").2.1
      (UrlView.mk (some "github.com") "/o/r") rfl).mpr ⟨by decide, by decide⟩
  · exact ((location_resolver_validation
        (fun s => if s = "https://github.com/o/r"
          then some (UrlView.mk (some "github.com") "/o/r") else none)
        "https://github.com/o/r" "SKILL.md").2.2.2
      (UrlView.mk (some "github.com") "/o/r") rfl).mpr
      (Or.inr ⟨by decide, by decide, by decide⟩)
  · exact (location_resolver_validation (fun _ => none)
      "https://nope" "SKILL.md").1 rfl
  · exact (location_resolver_validation (fun _ => none)
      "https://nope" "SKILL.md").2.2.1 rfl

/-- Outcome of `agent.get(url).call()` followed by the optional body read:
either the request itself fails, or a response arrives with a status code
and a body read that may itself fail (`response.into_string()`). -/
inductive FetchResult where
  | failure (err : String)
  | response (status : Nat) (body : Except String String)

/-- Whether a fetch outcome is a status-200 response. -/
def is_success_200 : FetchResult → Bool
  | FetchResult.response s _ => s == 200
  | FetchResult.failure _ => false

/-- The loop of `fetch_skill_content`, with the mutable `last_error`
variable made an explicit argument. -/
def fetch_skill_content_loop (respond : String → FetchResult) :
    List String → Option String → Except String String
  | [], lastError => Except.error (lastError.getD "Unable to download SKILL.md")
  | url :: rest, lastError =>
    match respond url with
    | FetchResult.response status body =>
      if status = 200 then
        match body with
        | Except.error err => Except.error ("Failed to read response: " ++ err)
        | Except.ok b =>
          if str_trim b = "" then Except.error "SKILL.md is empty"
          else Except.ok b
      else
        fetch_skill_content_loop respond rest
          (some ("Unexpected status " ++ toString status))
    | FetchResult.failure err =>
      fetch_skill_content_loop respond rest (some ("Request failed: " ++ err))

/-- `fetch_skill_content` (`respond` stands for the network: the outcome of
requesting each URL). -/
def fetch_skill_content (respond : String → FetchResult)
    (urls : List String) : Except String String :=
  fetch_skill_content_loop respond urls none

theorem fetch_loop_prefix (respond : String → FetchResult)
    (urls₁ : List String) (url : String) (urls₂ : List String)
    (hpre : ∀ u ∈ urls₁, is_success_200 (respond u) = false) :
    ∀ le, ∃ le', fetch_skill_content_loop respond (urls₁ ++ url :: urls₂) le =
      fetch_skill_content_loop respond (url :: urls₂) le' := by
  induction urls₁ with
  | nil => intro le; exact ⟨le, rfl⟩
  | cons u us ih =>
    intro le
    have hu : is_success_200 (respond u) = false := hpre u (by simp)
    have hpre' : ∀ x ∈ us, is_success_200 (respond x) = false :=
      fun x hx => hpre x (by simp [hx])
    cases hr : respond u with
    | failure e =>
      simp only [List.cons_append, fetch_skill_content_loop, hr]
      exact ih hpre' _
    | response s body =>
      have hne : ¬ s = 200 := by
        intro h
        rw [hr] at hu
        simp [is_success_200, h] at hu
      simp only [List.cons_append, fetch_skill_content_loop, hr]
      rw [if_neg hne]
      exact ih hpre' _

/-- C8: `fetch_skill_content` tries the candidate URLs in order: if every
URL before `url` yields a transport failure or a non-200 status, and `url`
yields a 200 response whose body reads as `b`, then the call returns `b`
when its trimmed body is non-empty, and reports the validation failure
"SKILL.md is empty" (not a transport error) when it is empty. -/
theorem fetch_first_success (respond : String → FetchResult)
    (urls₁ urls₂ : List String) (url b : String)
    (hpre : ∀ u ∈ urls₁, is_success_200 (respond u) = false)
    (hurl : respond url = FetchResult.response 200 (Except.ok b)) :
    (str_trim b ≠ "" →
      fetch_skill_content respond (urls₁ ++ url :: urls₂) = Except.ok b) ∧
    (str_trim b = "" →
      fetch_skill_content respond (urls₁ ++ url :: urls₂) =
        Except.error "SKILL.md is empty") := by
  obtain ⟨le', hle⟩ := fetch_loop_prefix respond urls₁ url urls₂ hpre none
  rw [fetch_skill_content, hle]
  simp only [fetch_skill_content_loop, hurl, if_true]
  constructor
  · intro hb
    rw [if_neg hb]
  · intro hb
    rw [if_pos hb]

/-- Witness for the C8 theorem: the first URL fails with a transport error,
the second returns 200 with body "body", and the fetch returns that body. -/
theorem fetch_first_success_witness :
    fetch_skill_content
      (fun u => if u = "u2" then FetchResult.response 200 (Except.ok "body")
        else FetchResult.failure "boom")
      ["u1", "u2"] = Except.ok "body" :=
  (fetch_first_success
    (fun u => if u = "u2" then FetchResult.response 200 (Except.ok "body")
      else FetchResult.failure "boom")
    ["u1"] [] "u2" "body" (by decide) rfl).1 (by decide)

/-- Rust `char::is_ascii_alphanumeric`. -/
def ascii_alphanumeric (c : Char) : Bool :=
  (48 ≤ c.toNat && c.toNat ≤ 57) || (65 ≤ c.toNat && c.toNat ≤ 90) ||
    (97 ≤ c.toNat && c.toNat ≤ 122)

/-- Rust `char::to_ascii_lowercase`. -/
def ascii_lower (c : Char) : Char :=
  if 65 ≤ c.toNat && c.toNat ≤ 90 then Char.ofNat (c.toNat + 32) else c

/-- The character loop of `slugify`: lowercase alphanumeric runs, a single
dash for each separator run (`last_dash` is the second argument). -/
def slugify_chars : List Char → Bool → List Char
  | [], _ => []
  | c :: rest, lastDash =>
    if ascii_alphanumeric c then ascii_lower c :: slugify_chars rest false
    else if lastDash then slugify_chars rest true
    else '-' :: slugify_chars rest true

/-- Rust `str::trim_matches('-')`: drop dashes from both ends. -/
def trim_dashes (l : List Char) : List Char :=
  ((l.dropWhile (fun c => c = '-')).reverse.dropWhile (fun c => c = '-')).reverse

/-- `slugify` (`stamp` stands for the Unix-epoch seconds used by the
fallback placeholder). -/
def slugify (stamp : Nat) (name : String) : String :=
  let trimmed := trim_dashes (slugify_chars name.data false)
  if trimmed = [] then "skill-" ++ toString stamp
  else String.mk trimmed

/-- The suffix-probing loop of `install_skill_from_url` (`ex` stands for
`Path::exists`; `fuel` bounds the unbounded Rust loop). -/
def allocate_skill_dir_probe (ex : String → Bool) (base : String) :
    Nat → Nat → Option String
  | 0, _ => none
  | fuel + 1, suffix =>
    let candidate := base ++ "-" ++ toString suffix
    if ex candidate then allocate_skill_dir_probe ex base fuel (suffix + 1)
    else some candidate

/-- The skill-directory allocation of `install_skill_from_url`: the base
slug if its directory does not exist, otherwise the first free
`<slug>-<n>`. -/
def allocate_skill_dir (ex : String → Bool) (base : String) (fuel : Nat) :
    Option String :=
  if ex base then allocate_skill_dir_probe ex base fuel 1
  else some base

theorem probe_spec (ex : String → Bool) (base : String) :
    ∀ fuel start n, start ≤ n →
      (∀ m, start ≤ m → m < n → ex (base ++ "-" ++ toString m) = true) →
      ex (base ++ "-" ++ toString n) = false →
      n - start < fuel →
      allocate_skill_dir_probe ex base fuel start =
        some (base ++ "-" ++ toString n) := by
  intro fuel
  induction fuel with
  | zero => intro start n _ _ _ h; omega
  | succ f ih =>
    intro start n hsn hall hfree hlt
    by_cases hs : start = n
    · subst hs
      simp only [allocate_skill_dir_probe, hfree, Bool.false_eq_true, if_false]
    · have hlt2 : start < n := lt_of_le_of_ne hsn hs
      have ht : ex (base ++ "-" ++ toString start) = true := hall start le_rfl hlt2
      simp only [allocate_skill_dir_probe, ht, if_true]
      exact ih (start + 1) n (by omega) (fun m h1 h2 => hall m (by omega) h2)
        hfree (by omega)

/-- C9: `slugify` maps "My Cool Skill!!" to "my-cool-skill"; every name
whose dash-trimmed transform is empty gets the non-empty time-based
placeholder `skill-<stamp>`; and when the base slug's directory exists,
`install_skill_from_url` linearly probes `<slug>-1`, `<slug>-2`, … and
takes the first free candidate — in particular a second install of the
same name gets `<slug>-1`. -/
theorem slug_allocation (stamp n fuel : Nat) (name base : String)
    (ex : String → Bool)
    (hempty : trim_dashes (slugify_chars name.data false) = [])
    (hbase : ex base = true)
    (hall : ∀ m, 1 ≤ m → m < n → ex (base ++ "-" ++ toString m) = true)
    (hfree : ex (base ++ "-" ++ toString n) = false)
    (h1 : 1 ≤ n) (hfuel : n ≤ fuel) :
    slugify stamp "My Cool Skill!!" = "my-cool-skill" ∧
    slugify stamp name = "skill-" ++ toString stamp ∧
    slugify stamp name ≠ "" ∧
    allocate_skill_dir ex base fuel = some (base ++ "-" ++ toString n) ∧
    (∀ ex2 : String → Bool, ex2 base = false →
      allocate_skill_dir ex2 base fuel = some base) := by
  have hplaceholder : slugify stamp name = "skill-" ++ toString stamp := by
    simp only [slugify]
    rw [if_pos hempty]
  refine ⟨rfl, hplaceholder, ?_, ?_, ?_⟩
  · rw [hplaceholder]
    intro hcontra
    have hlen := congrArg String.length hcontra
    rw [String.length_append] at hlen
    rw [show ("skill-".length) = 6 from rfl, show ("".length) = 0 from rfl] at hlen
    omega
  · simp only [allocate_skill_dir, hbase, if_true]
    exact probe_spec ex base fuel 1 n h1 hall hfree (by omega)
  · intro ex2 h2
    simp only [allocate_skill_dir, h2, Bool.false_eq_true, if_false]

/-- Witness for the C9 theorem: "" gets the placeholder `skill-7`, and a
second install of a name slugging to `my-cool-skill` gets
`my-cool-skill-1`. -/
theorem slug_allocation_witness :
    slugify 7 "My Cool Skill!!" = "my-cool-skill" ∧
    slugify 7 "" = "skill-7" ∧
    allocate_skill_dir (fun s => s == "my-cool-skill") "my-cool-skill" 1 =
      some "my-cool-skill-1" := by
  have h := slug_allocation 7 1 1 "" "my-cool-skill"
    (fun s => s == "my-cool-skill") rfl (by decide)
    (fun m hm1 hm2 => by omega) (by decide) (by decide) (by decide)
  exact ⟨h.1, h.2.1, h.2.2.2.1⟩

/-- Filesystem paths as lists of components (the granularity at which
`Path::starts_with` and `fs::canonicalize` operate). -/
abbrev FsPath := List String

/-- The filesystem as seen by the skill commands: `Path::exists` and
`fs::canonicalize` (which resolves symlinks and `..` segments and can
fail). -/
structure FsView where
  pathExists : FsPath → Bool
  canonicalize : FsPath → Except String FsPath

/-- A mutating filesystem action performed by a skill command. -/
inductive FsAction where
  | removeDirAll (p : FsPath)
  | writeFile (p : FsPath) (contents : String)

/-- `delete_skill` from the skill-directory computation on: the returned
list is the trace of mutating filesystem actions (an error return means
none were performed, since the Rust function returns before its only
mutation). -/
def delete_skill (fs : FsView) (root skillId : FsPath) :
    Except String (List FsAction) :=
  let skillDir := root ++ skillId
  if !(fs.pathExists skillDir) then Except.error "Skill not found"
  else
    match fs.canonicalize root with
    | Except.error e => Except.error ("Failed to resolve root: " ++ e)
    | Except.ok rootCanon =>
      match fs.canonicalize skillDir with
      | Except.error e => Except.error ("Failed to resolve skill: " ++ e)
      | Except.ok skillCanon =>
        if !(rootCanon.isPrefixOf skillCanon) then
          Except.error "Refusing to delete outside agent root"
        else Except.ok [FsAction.removeDirAll skillDir]

/-- `list_skill_tree` from the skill-directory computation on
(`buildTree` stands for `build_skill_tree`, which only reads). -/
def list_skill_tree {α : Type} (fs : FsView)
    (buildTree : FsPath → Except String α) (root skillId : FsPath) :
    Except String α :=
  let skillDir := root ++ skillId
  if !(fs.pathExists skillDir) then Except.error "Skill not found"
  else
    match fs.canonicalize root with
    | Except.error e => Except.error ("Failed to resolve root: " ++ e)
    | Except.ok rootCanon =>
      match fs.canonicalize skillDir with
      | Except.error e => Except.error ("Failed to resolve skill: " ++ e)
      | Except.ok skillCanon =>
        if !(rootCanon.isPrefixOf skillCanon) then
          Except.error "Refusing to read outside agent root"
        else buildTree skillDir

/-- `sync_skill_from_url` from the skill-directory computation on
(`rest` stands for everything after the guard — core-file discovery,
download and write — returning the trace of mutating actions it
performs). -/
def sync_skill_from_url (fs : FsView)
    (rest : FsPath → Except String (List FsAction)) (root skillId : FsPath) :
    Except String (List FsAction) :=
  let skillDir := root ++ skillId
  if !(fs.pathExists skillDir) then Except.error "Skill not found"
  else
    match fs.canonicalize root with
    | Except.error e => Except.error ("Failed to resolve root: " ++ e)
    | Except.ok rootCanon =>
      match fs.canonicalize skillDir with
      | Except.error e => Except.error ("Failed to resolve skill: " ++ e)
      | Except.ok skillCanon =>
        if !(rootCanon.isPrefixOf skillCanon) then
          Except.error "Refusing to sync outside agent root"
        else rest skillDir

/-- C2: the Path Safety Guard.  For any skill directory that exists and
canonicalizes, together with its source root: if the canonical skill
directory is not prefixed by the canonical root, `delete_skill`,
`list_skill_tree` and `sync_skill_from_url` all fail with their
safety-violation errors and perform no mutating action; if it is inside
the root, the guard lets each operation proceed (`delete_skill` performs
exactly its directory removal, the other two continue with their
post-guard work). -/
theorem path_safety_guard {α : Type} (fs : FsView) (root skillId : FsPath)
    (rootCanon skillCanon : FsPath) (buildTree : FsPath → Except String α)
    (rest : FsPath → Except String (List FsAction))
    (hex : fs.pathExists (root ++ skillId) = true)
    (hroot : fs.canonicalize root = Except.ok rootCanon)
    (hskill : fs.canonicalize (root ++ skillId) = Except.ok skillCanon) :
    (rootCanon.isPrefixOf skillCanon = false →
      delete_skill fs root skillId =
        Except.error "Refusing to delete outside agent root" ∧
      list_skill_tree fs buildTree root skillId =
        Except.error "Refusing to read outside agent root" ∧
      sync_skill_from_url fs rest root skillId =
        Except.error "Refusing to sync outside agent root") ∧
    (rootCanon.isPrefixOf skillCanon = true →
      delete_skill fs root skillId =
        Except.ok [FsAction.removeDirAll (root ++ skillId)] ∧
      list_skill_tree fs buildTree root skillId = buildTree (root ++ skillId) ∧
      sync_skill_from_url fs rest root skillId = rest (root ++ skillId)) := by
  constructor
  · intro hpre
    refine ⟨?_, ?_, ?_⟩
    · simp only [delete_skill, hex, Bool.not_true, Bool.false_eq_true, if_false,
        hroot, hskill, hpre, Bool.not_false, if_true]
    · simp only [list_skill_tree, hex, Bool.not_true, Bool.false_eq_true, if_false,
        hroot, hskill, hpre, Bool.not_false, if_true]
    · simp only [sync_skill_from_url, hex, Bool.not_true, Bool.false_eq_true,
        if_false, hroot, hskill, hpre, Bool.not_false, if_true]
  · intro hpre
    refine ⟨?_, ?_, ?_⟩
    · simp only [delete_skill, hex, Bool.not_true, Bool.false_eq_true, if_false,
        hroot, hskill, hpre]
    · simp only [list_skill_tree, hex, Bool.not_true, Bool.false_eq_true, if_false,
        hroot, hskill, hpre]
    · simp only [sync_skill_from_url, hex, Bool.not_true, Bool.false_eq_true,
        if_false, hroot, hskill, hpre]

/-- Witness for the C2 theorem: with identity canonicalization the guard
admits the delete; with a canonicalization sending the skill directory
outside the root (a symlink escaping it), all three operations are
refused. -/
theorem path_safety_guard_witness :
    delete_skill
      (FsView.mk (fun _ => true) (fun p => Except.ok p))
      ["home"] ["s"] = Except.ok [FsAction.removeDirAll ["home", "s"]] ∧
    delete_skill
      (FsView.mk (fun _ => true)
        (fun p => Except.ok (if p = ["home"] then ["a"] else ["b"])))
      ["home"] ["s"] =
        Except.error "Refusing to delete outside agent root" ∧
    sync_skill_from_url
      (FsView.mk (fun _ => true)
        (fun p => Except.ok (if p = ["home"] then ["a"] else ["b"])))
      (fun d => Except.ok [FsAction.writeFile (d ++ ["SKILL.md"]) "x"])
      ["home"] ["s"] =
        Except.error "Refusing to sync outside agent root" := by
  refine ⟨?_, ?_, ?_⟩
  · exact ((path_safety_guard (α := Unit)
      (FsView.mk (fun _ => true) (fun p => Except.ok p))
      ["home"] ["s"] ["home"] ["home", "s"] (fun _ => Except.ok ())
      (fun _ => Except.ok []) rfl rfl rfl).2 (by decide)).1
  · exact ((path_safety_guard (α := Unit)
      (FsView.mk (fun _ => true)
        (fun p => Except.ok (if p = ["home"] then ["a"] else ["b"])))
      ["home"] ["s"] ["a"] ["b"] (fun _ => Except.ok ())
      (fun _ => Except.ok []) rfl rfl rfl).1 (by decide)).1
  · exact ((path_safety_guard (α := Unit)
      (FsView.mk (fun _ => true)
        (fun p => Except.ok (if p = ["home"] then ["a"] else ["b"])))
      ["home"] ["s"] ["a"] ["b"] (fun _ => Except.ok ())
      (fun d => Except.ok [FsAction.writeFile (d ++ ["SKILL.md"]) "x"])
      rfl rfl rfl).1 (by decide)).2.2
